import Mathlib

/-!
Mandelbrot renderer: escape-time evaluator, colour mapper, coordinate transform,
palette loader, raster engine and animation sequencer

A shallow embedding of `pkg/mandelbrot/mandelbrot.go` and of `mainVideo` of
`cmd/mandelbrot.go`.

* `float64` values are elements of a linear ordered field `α` with a floor
  function.  At `α = ℝ` this is the exact-real reading of the program; at
  `α = ℚ` every definition below is executable.
* Go's `int` is `Int`.
* The transcendental functions of Go's `math` package (`Log`, `Cos`, `Sin`)
  are passed in as a record `MathFns α`; at `α = ℝ` the intended record is
  `Real.log`, `Real.cos`, `Real.sin`.  `math.Pow` and `math.Pi` are parameters
  of `mainVideo`.
* A run-time panic (index out of range, integer division by zero) is `none`.
* The special values of `float64` (not-a-number, the infinities, overflow)
  are modelled apart, in `F64`, with the evaluator and the colour mapper
  restated over it.
* A text is a list of characters.  `bufio.Scanner`, with its buffer of 64 KiB,
  and `fmt.Sscanf`, for the one format `"%d %d %d"`, are modelled after the Go
  library.
* The output of `mainVideo` is the list of the viewports of the frames written.
* The channels of `GetImage` deliver every job and every result exactly once;
  the order in which the collector receives the results is any permutation.
-/

namespace Mandelbrot

/-! ## Data model -/

/-- The functions of Go's `math` package the program calls that are not
field operations. -/
structure MathFns (α : Type) where
  Log : α → α
  Cos : α → α
  Sin : α → α

/-- Go `type Config struct` of `mandelbrot.go`, field for field. -/
structure Config (α : Type) where
  RunType : String
  MaxIteration : Int
  ColorsFilePath : String
  ColorCalc : String
  ImageWidth : Int
  ImageHeight : Int
  CenterX : α
  CenterY : α
  Scale : α
  Rotation : α
  XLines : String
  YLines : String
  FramesPerSecond : Int
  InitialImageTime : α
  InitialScale : α
  InitialRotation : α
  ZoomTime : α
  ZoomRotation : Int
  FinalImageTime : α

/-- Go `type Color struct` with the `int` fields `R`, `G`, `B`. -/
structure Color where
  R : Int
  G : Int
  B : Int
deriving DecidableEq, Repr

section Defs

variable {α : Type} [LinearOrderedField α]

/-- The configuration holding the `env-default` value of every field. -/
def defaultConfig : Config α where
  RunType := "image"
  MaxIteration := 1000
  ColorsFilePath := "default.pal"
  ColorCalc := "smooth"
  ImageWidth := 1920
  ImageHeight := 1080
  CenterX := 0
  CenterY := 0
  Scale := 3 / 1000
  Rotation := 0
  XLines := ""
  YLines := ""
  FramesPerSecond := 60
  InitialImageTime := 1
  InitialScale := 3 / 1000
  InitialRotation := 0
  ZoomTime := 10
  ZoomRotation := 0
  FinalImageTime := 1

/-! ## Go numeric primitives -/

/-- Go's conversion `int(x)` of a float: the fractional part is discarded
(truncation toward zero). -/
def toInt [FloorRing α] (x : α) : Int :=
  if 0 ≤ x then ⌊x⌋ else ⌈x⌉

/-- Go's `math.Floor`: the greatest integer value not above `x`, as a float. -/
def Floor [FloorRing α] (x : α) : α :=
  ((⌊x⌋ : Int) : α)

/-- Go's `math.Mod(x, y)`: the remainder of `x / y` with the sign of `x`,
that is `x - y * trunc (x / y)`. -/
def Mod [FloorRing α] (x y : α) : α :=
  x - y * ((toInt (x / y) : Int) : α)

/-- Go's `math.Round`: nearest integer value, halves away from zero. -/
def Round [FloorRing α] (x : α) : α :=
  if 0 ≤ x then ((⌊x + 1 / 2⌋ : Int) : α) else ((⌈x - 1 / 2⌉ : Int) : α)

/-- Go's slice indexing `colors[i]` with an `int` index: a panic (`none`)
when the index is negative or not below the length. -/
def index (colors : List Color) (i : Int) : Option Color :=
  if i < 0 then none else colors.get? i.toNat

/-- Go's integer remainder `i % n`: truncated (sign of the dividend), and a
panic (`none`) when `n = 0`. -/
def goMod (i n : Int) : Option Int :=
  if n = 0 then none else some (Int.tmod i n)

/-! ## Escape-time evaluator (`CalculateSet`) -/

/-- The `for iteration < config.MaxIteration` loop of `CalculateSet`, on the
loop variables `(iteration, aCurrent, bCurrent)`.  The first argument bounds
the number of passes; `CalculateSet` supplies `MaxIteration.toNat`, which is
never exhausted before the loop condition fails (`loop_fuel`).  As in the
source, the update of `aCurrent`, `bCurrent` precedes the `break` test. -/
def CalculateSet.loop (MaxIteration : Int) (a b : α) :
    Nat → Int → α → α → Int × α × α
  | 0, iteration, aCurrent, bCurrent => (iteration, aCurrent, bCurrent)
  | fuel + 1, iteration, aCurrent, bCurrent =>
    if iteration < MaxIteration then
      let aSquared := aCurrent * aCurrent
      let bSquared := bCurrent * bCurrent
      let current := aSquared + bSquared
      let aTemp := aSquared - bSquared + a
      let bNext := 2 * aCurrent * bCurrent + b
      if current > 64 then (iteration, aTemp, bNext)
      else CalculateSet.loop MaxIteration a b fuel (iteration + 1) aTemp bNext
    else (iteration, aCurrent, bCurrent)

/-- The loop variables `(iteration, aCurrent, bCurrent)` of `CalculateSet`
when its loop has ended. -/
def CalculateSet.final (config : Config α) (a b : α) : Int × α × α :=
  CalculateSet.loop config.MaxIteration a b config.MaxIteration.toNat 0 0 0

/-- The smoothing block of `CalculateSet` after the loop: `var color float64`
(zero), overwritten when `iteration < config.MaxIteration`.  An ordered field
has no not-a-number, of which the test `color < 0.0` is false; the special
values of `float64` are in `F64.CalculateSet.color`. -/
def CalculateSet.color (m : MathFns α) (config : Config α)
    (iteration : Int) (aCurrent bCurrent : α) : α :=
  if iteration < config.MaxIteration then
    let logZn := m.Log (aCurrent * aCurrent + bCurrent * bCurrent) / 2
    let nu := m.Log (logZn / m.Log 2) / m.Log 2
    let color := (iteration : α) + 1 - nu
    if color < 0 then 0 else color
  else 0

/-- Go `func CalculateSet(config Config, a, b float64) (bool, int, float64)`. -/
def CalculateSet (m : MathFns α) (config : Config α) (a b : α) : Bool × Int × α :=
  let st := CalculateSet.final config a b
  (decide (st.1 = config.MaxIteration), st.1,
    CalculateSet.color m config st.1 st.2.1 st.2.2)

/-! ## Colour mapper (the closure returned by `GetCalculateColor`) -/

/-- The closure `func(inSet bool, escapeIteration int, escapeValue float64) Color`
returned by `GetCalculateColor` for `ColorCalc == "smooth"`, over the loaded
palette `colors`. -/
def smoothColor [FloorRing α] (colors : List Color) (inSet : Bool) (_escapeIteration : Int)
    (escapeValue : α) : Option Color :=
  if inSet then some ⟨0, 0, 0⟩
  else
    let i := toInt (Floor escapeValue)
    let s := Mod escapeValue 1
    (goMod (i + 1) colors.length).bind fun i1 =>
    (index colors i1).bind fun c1 =>
    (goMod i colors.length).bind fun i2 =>
    (index colors i2).bind fun c2 =>
    let r := toInt ((c1.R : α) * s + (c2.R : α) * (1 - s))
    let g := toInt ((c1.G : α) * s + (c2.G : α) * (1 - s))
    let b := toInt ((c1.B : α) * s + (c2.B : α) * (1 - s))
    some ⟨r, g, b⟩

/-- Go `func GetCalculateColor(config Config)`, given the outcome `loaded` of its
call to `LoadColors(config)`. -/
def GetCalculateColor [FloorRing α] (config : Config α) (loaded : Except String (List Color)) :
    Except String (Bool → Int → α → Option Color) :=
  match loaded with
  | .error err => .error err
  | .ok colors =>
    if config.ColorCalc = "smooth" then .ok (smoothColor colors)
    else .error "Invalid name"

/-! ## Coordinate transform -/

/-- Go `func ImageToPlane(config Config, x, y int) (float64, float64)`. -/
def ImageToPlane (m : MathFns α) (config : Config α) (x y : Int) : α × α :=
  let a := ((x : α) - ((config.ImageWidth - 1 : Int) : α) / 2) * config.Scale
  let b := (((config.ImageHeight - 1 : Int) : α) / 2 - (y : α)) * config.Scale
  let rotA := m.Cos config.Rotation * a - m.Sin config.Rotation * b
  let rotB := m.Sin config.Rotation * a + m.Cos config.Rotation * b
  (config.CenterX + rotA, config.CenterY + rotB)

/-- Go `func PlaneToImage(config Config, x, y float64) (int, int)`. -/
def PlaneToImage [FloorRing α] (m : MathFns α) (config : Config α) (x y : α) : Int × Int :=
  let rotA := x - config.CenterX
  let rotB := y - config.CenterY
  let a := m.Cos config.Rotation * rotA + m.Sin config.Rotation * rotB
  let b := -m.Sin config.Rotation * rotA + m.Cos config.Rotation * rotB
  let aa := a / config.Scale + ((config.ImageWidth - 1 : Int) : α) / 2
  let bb := -b / config.Scale + ((config.ImageHeight - 1 : Int) : α) / 2
  (toInt (Round aa), toInt (Round bb))

/-! ## The orbit of the specification -/

/-- The orbit `z_0 = 0`, `z_(n+1) = z_n ^ 2 + c` of the point `c = (a, b)`, in
real and imaginary parts. -/
def orbit (a b : α) : Nat → α × α
  | 0 => (0, 0)
  | n + 1 =>
    let z := orbit a b n
    (z.1 * z.1 - z.2 * z.2 + a, 2 * z.1 * z.2 + b)

/-- The squared magnitude `|z_n|^2` of the `n`-th orbit value. -/
def normSq (a b : α) (n : Nat) : α :=
  (orbit a b n).1 * (orbit a b n).1 + (orbit a b n).2 * (orbit a b n).2

/-- The orbit value `z_n` has squared magnitude above 64. -/
def escaped (a b : α) (n : Nat) : Prop :=
  normSq a b n > 64

instance (a b : α) (n : Nat) : Decidable (escaped a b n) := by
  unfold escaped; infer_instance

/-! ## Palette loader (`LoadColors`) -/

/-- The white space of Go's `fmt` scanner (its `isSpace`): the code points
`U+0009..U+000D`, `U+0020`, `U+0085`, `U+00A0`, `U+1680`, `U+2000..U+200A`,
`U+2028`, `U+2029`, `U+202F`, `U+205F`, `U+3000`. -/
def isSpace (c : Char) : Bool :=
  decide ((0x09 ≤ c.toNat ∧ c.toNat ≤ 0x0d) ∨ c.toNat = 0x20 ∨ c.toNat = 0x85 ∨
    c.toNat = 0xa0 ∨ c.toNat = 0x1680 ∨ (0x2000 ≤ c.toNat ∧ c.toNat ≤ 0x200a) ∨
    c.toNat = 0x2028 ∨ c.toNat = 0x2029 ∨ c.toNat = 0x202f ∨ c.toNat = 0x205f ∨
    c.toNat = 0x3000)

/-- A decimal digit `0..9`. -/
def isDecimal (c : Char) : Bool :=
  decide (48 ≤ c.toNat ∧ c.toNat ≤ 57)

/-- The characters the scanner's `scanNumber` accepts for the verb `%d`: the
decimal digits. -/
def acceptsDigit (c : Char) : Bool :=
  isDecimal c

/-- The errors `fmt.Sscanf` can return for the format `"%d %d %d"`. -/
inductive ScanError where
  | unexpectedEOF
  | unexpectedNewline
  | expectedInteger
  | expectedSpace
  | newlineInInput
  | parseSyntax (tok : List Char)
  | parseRange (tok : List Char)
deriving DecidableEq, Repr

/-- A rendering of the scan errors, for evaluation only.  `LoadColors` takes
the rendering of a scan error (`err.Error()`) as a parameter, and nothing
proved below depends on the wording, nor on which of the errors the library
reports for a line it rejects. -/
def ScanError.text : ScanError → String
  | .unexpectedEOF => "unexpected EOF"
  | .unexpectedNewline => "unexpected newline"
  | .expectedInteger => "expected integer"
  | .expectedSpace => "expected space in input to match format"
  | .newlineInInput => "newline in input does not match format"
  | .parseSyntax tok => "strconv.ParseInt: parsing " ++ (String.mk tok).quote ++ ": invalid syntax"
  | .parseRange tok =>
    "strconv.ParseInt: parsing " ++ (String.mk tok).quote ++ ": value out of range"

/-- The scanner's `SkipSpace` (with `nlIsSpace` off, as for `Sscanf`): white
space is consumed, a newline is an error. -/
def skipSpace : List Char → Except ScanError (List Char)
  | [] => .ok []
  | c :: rest =>
    if c.toNat = 10 then .error .unexpectedNewline
    else if isSpace c then skipSpace rest
    else .ok (c :: rest)

/-- A space of the format string that does not follow a newline: it must
match at least one white space of the input, or the end of the input, and
consumes the white space up to a newline. -/
def matchSpace : List Char → Except ScanError (List Char)
  | [] => .ok []
  | c :: rest =>
    if !isSpace c then .error .expectedSpace
    else if c.toNat = 10 then .error .newlineInInput
    else .ok (rest.dropWhile fun d => isSpace d && decide (d.toNat ≠ 10))

/-- The value of a sequence of decimal digits. -/
def decimalValue (ds : List Char) : Nat :=
  ds.foldl (fun v c => 10 * v + (c.toNat - 48)) 0

/-- Go's `strconv.ParseInt(tok, 10, 64)` on a token made of an optional sign
followed by the characters `ds`: a token without digits or with a character
that is not a decimal digit is a syntax error, a value outside the 64-bit
range a range error. -/
def ParseInt (sign : Option Char) (ds : List Char) : Except ScanError Int :=
  let tok := sign.toList ++ ds
  if ds = [] ∨ ¬ ds.all isDecimal = true then .error (.parseSyntax tok)
  else if sign = some '-' then
    if 2 ^ 63 < decimalValue ds then .error (.parseRange tok)
    else .ok (-(decimalValue ds : Int))
  else
    if 2 ^ 63 - 1 < decimalValue ds then .error (.parseRange tok)
    else .ok (decimalValue ds : Int)

/-- The scanner's `scanInt` for the verb `%d` into an `int`: skip white
space, fail at the end of the input, accept one sign, then at least one digit
character, and convert the token. -/
def scanInt (input : List Char) : Except ScanError (Int × List Char) :=
  match skipSpace input with
  | .error e => .error e
  | .ok [] => .error .unexpectedEOF
  | .ok (c :: rest) =>
    let sign : Option Char := if c = '+' ∨ c = '-' then some c else none
    let s1 := if c = '+' ∨ c = '-' then rest else c :: rest
    match s1 with
    | [] => .error .unexpectedEOF
    | d :: _ =>
      if !acceptsDigit d then .error .expectedInteger
      else
        match ParseInt sign (s1.takeWhile acceptsDigit) with
        | .error e => .error e
        | .ok v => .ok (v, s1.dropWhile acceptsDigit)

/-- Go's `fmt.Sscanf(line, "%d %d %d", &color.R, &color.G, &color.B)`: the
colour after the call, the number of items scanned and the error.  Input left
after the third integer is not looked at. -/
def Sscanf (line : List Char) (color : Color) : Color × Nat × Option ScanError :=
  match scanInt line with
  | .error e => (color, 0, some e)
  | .ok (r, rest1) =>
    match matchSpace rest1 with
    | .error e => ({ color with R := r }, 1, some e)
    | .ok rest2 =>
      match scanInt rest2 with
      | .error e => ({ color with R := r }, 1, some e)
      | .ok (g, rest3) =>
        match matchSpace rest3 with
        | .error e => ({ color with R := r, G := g }, 2, some e)
        | .ok rest4 =>
          match scanInt rest4 with
          | .error e => ({ color with R := r, G := g }, 2, some e)
          | .ok (b, _) => (⟨r, g, b⟩, 3, none)

/-- Go `func (c *Color) valid() bool`. -/
def Color.valid (c : Color) : Bool :=
  if c.R < 0 ∨ c.R > 255 then false
  else if c.G < 0 ∨ c.G > 255 then false
  else if c.B < 0 ∨ c.B > 255 then false
  else true

/-- Go's `strconv.Itoa`. -/
def Itoa (i : Int) : String :=
  toString i

/-- Go's `strings.HasPrefix(line, "#")`. -/
def hasPrefixHash : List Char → Bool
  | c :: _ => decide (c = '#')
  | [] => false

/-- Drop one trailing carriage return (`dropCR` of `bufio.ScanLines`). -/
def dropCR (line : List Char) : List Char :=
  if line.getLast? = some '\r' then line.dropLast else line

/-- The text cut at each newline: the pieces between newlines, and the piece
after the last newline when it is not empty.  The first argument is the part
of the current piece read so far, reversed. -/
def rawLines.go (acc : List Char) : List Char → List (List Char)
  | [] => if acc = [] then [] else [acc.reverse]
  | c :: rest =>
    if c = '\n' then acc.reverse :: rawLines.go [] rest
    else rawLines.go (c :: acc) rest

/-- The text cut at each newline. -/
def rawLines (text : List Char) : List (List Char) :=
  rawLines.go [] text

/-- The length of a line in bytes (Go strings are byte sequences in UTF-8). -/
def byteLength (line : List Char) : Nat :=
  (line.map Char.utf8Size).sum

/-- The constant `bufio.MaxScanTokenSize`: the size to which the scanner's
buffer grows. -/
def MaxScanTokenSize : Nat :=
  64 * 1024

/-- The lines of a text, as `scanner.Scan()` / `scanner.Text()` yield them
with the default split function `ScanLines` and the default buffer: the text
is cut at each newline and one trailing carriage return is dropped from each
line.  When the buffer is full (`MaxScanTokenSize` bytes from the start of a
line) and holds no newline, `Scan` returns false for good (`ErrTooLong`); the
lines before that one are all that is yielded. -/
def scanLines (text : List Char) : List (List Char) :=
  ((rawLines text).takeWhile fun line => decide (byteLength line < MaxScanTokenSize)).map
    dropCR

/-- The `for scanner.Scan()` loop of `LoadColors`, on the loop variables
`lineNumber`, `colors` and the lines the scanner still yields.  `errText`
renders the error of `Sscanf` (`err.Error()`).  When the scanner yields no
further line the colours read are returned: `scanner.Err()` is not read. -/
def LoadColors.loop (errText : ScanError → String) :
    Int → List Color → List (List Char) → Except String (List Color)
  | _, colors, [] => .ok colors
  | lineNumber, colors, line :: rest =>
    if hasPrefixHash line then LoadColors.loop errText (lineNumber + 1) colors rest
    else
      match Sscanf line ⟨0, 0, 0⟩ with
      | (_, _, some err) => .error (errText err ++ " on line " ++ Itoa (lineNumber + 1))
      | (color, n, none) =>
        if n ≠ 3 then
          .error ("Unexpected number of colors on line " ++ Itoa (lineNumber + 1))
        else if !color.valid then
          .error ("Invalid color on line " ++ Itoa (lineNumber + 1))
        else LoadColors.loop errText (lineNumber + 1) (colors ++ [color]) rest

/-- Go `func LoadColors(config Config) ([]Color, error)`, given the outcome
`opened` of `os.Open(config.ColorsFilePath)`: the error, or the text of the
file. -/
def LoadColors (errText : ScanError → String) (opened : Except String (List Char)) :
    Except String (List Color) :=
  match opened with
  | .error err => .error err
  | .ok text => LoadColors.loop errText 0 [] (scanLines text)


/-! ## Well-formed palette texts, in the words of the specification -/

/-- The lines of a text: the text cut at each newline, with one trailing
carriage return dropped from each line. -/
def textLines (text : List Char) : List (List Char) :=
  (rawLines text).map dropCR

/-- A blank: a space or a tab. -/
def isBlank (c : Char) : Bool :=
  decide (c.toNat = 32) || decide (c.toNat = 9)

/-- A valid `R G B` line with the colour it denotes: three non-empty runs of
decimal digits, each of value at most 255, separated by non-empty runs of
blanks, with blanks allowed before and after. -/
def validLine (line : List Char) (c : Color) : Prop :=
  ∃ s0 d1 s1 d2 s2 d3 s3 : List Char,
    line = s0 ++ (d1 ++ (s1 ++ (d2 ++ (s2 ++ (d3 ++ s3))))) ∧
    s0.all isBlank = true ∧ s1.all isBlank = true ∧ s2.all isBlank = true ∧
    s3.all isBlank = true ∧ s1 ≠ [] ∧ s2 ≠ [] ∧
    d1.all isDecimal = true ∧ d2.all isDecimal = true ∧ d3.all isDecimal = true ∧
    d1 ≠ [] ∧ d2 ≠ [] ∧ d3 ≠ [] ∧
    decimalValue d1 ≤ 255 ∧ decimalValue d2 ≤ 255 ∧ decimalValue d3 ≤ 255 ∧
    c = ⟨(decimalValue d1 : Int), (decimalValue d2 : Int), (decimalValue d3 : Int)⟩

/-- The palette a sequence of lines denotes when each line is a comment line
(beginning with `#`) or a valid `R G B` line: the colours of the valid lines,
in their order. -/
inductive Denotes : List (List Char) → List Color → Prop where
  | nil : Denotes [] []
  | comment (line : List Char) (rest : List (List Char)) (cs : List Color) :
      hasPrefixHash line = true → Denotes rest cs → Denotes (line :: rest) cs
  | entry (line : List Char) (c : Color) (rest : List (List Char)) (cs : List Color) :
      validLine line c → Denotes rest cs → Denotes (line :: rest) (c :: cs)


/-! ## Parallel raster engine (`GetImage`) -/

/-- The `type job struct` of `GetImage`. -/
structure Job (α : Type) where
  x : Int
  y : Int
  a : α
  b : α

/-- The `type result struct` of `GetImage`. -/
structure Result where
  x : Int
  y : Int
  color : Color

/-- The jobs the producer loops of `GetImage` send on the `jobs` channel, in
the order sent: `for x := 0; x < ImageWidth; x++` around
`for y := 0; y < ImageHeight; y++`. -/
def GetImage.jobs (config : Config α) (scale : α) : List (Job α) :=
  (List.range config.ImageWidth.toNat).flatMap fun (x : Nat) =>
    let a := (((x : Int) : α) - ((config.ImageWidth - 1 : Int) : α) / 2) * scale
    (List.range config.ImageHeight.toNat).map fun (y : Nat) =>
      let b := (((config.ImageHeight - 1 : Int) : α) / 2 - ((y : Int) : α)) * scale
      ⟨(x : Int), (y : Int), a, b⟩

/-- The plane point `(tranA, tranB)` that the closure `calc` of `GetImage`
passes to `CalculateSet` for a job. -/
def GetImage.point (m : MathFns α) (centerX centerY rotation : α) (j : Job α) : α × α :=
  let rotA := m.Cos rotation * j.a - m.Sin rotation * j.b
  let rotB := m.Sin rotation * j.a + m.Cos rotation * j.b
  let tranA := centerX + rotA
  let tranB := centerY + rotB
  (tranA, tranB)

/-- The closure `calc` of `GetImage`, run by a worker on a job. -/
def GetImage.calc (m : MathFns α) (config : Config α) (centerX centerY rotation : α)
    (calcColor : Bool → Int → α → Color) (j : Job α) : Result :=
  let p := GetImage.point m centerX centerY rotation j
  let r := CalculateSet m config p.1 p.2
  ⟨j.x, j.y, calcColor r.1 r.2.1 r.2.2⟩

/-- The results of `GetImage`, in the order of the jobs.  Each job is received
from the `jobs` channel by exactly one worker, which sends one result; the
collector receives the results in an order that depends on the scheduling, a
permutation of this list, and writes pixel `(r.x, r.y)` for each. -/
def GetImage.results (m : MathFns α) (config : Config α)
    (centerX centerY scale rotation : α) (calcColor : Bool → Int → α → Color) :
    List Result :=
  (GetImage.jobs config scale).map (GetImage.calc m config centerX centerY rotation calcColor)

/-- The pixel a result is written to by the collector (`dc.SetPixel(r.x, r.y)`). -/
def Result.pixel (r : Result) : Int × Int :=
  (r.x, r.y)

/-! ## Animation sequencer (`mainVideo`) -/

/-- The arguments `centerX, centerY, scale, rotation` of one call of
`GetImage`; a frame written by `mainVideo` is the image of such a call. -/
structure Viewport (α : Type) where
  centerX : α
  centerY : α
  scale : α
  rotation : α

/-- The zoom loop `for i := 0; i < zoomFrames; i++` of `mainVideo` on the
loop variables `i` and `scale`: the viewports of the frames it writes.  The
first argument bounds the number of passes; `mainVideo` supplies
`zoomFrames.toNat`. -/
def mainVideo.zoom (c : Config α) (zoomFrames : Int) (zoomRotation scaleProportion : α) :
    Nat → Int → α → List (Viewport α)
  | 0, _, _ => []
  | fuel + 1, i, scale =>
    if i < zoomFrames then
      let ratio := ((i : Int) : α) / ((zoomFrames : Int) : α)
      let scale1 := scale * scaleProportion
      let rotation := c.InitialRotation + ratio * zoomRotation
      ⟨c.CenterX, c.CenterY, scale1, rotation⟩ ::
        mainVideo.zoom c zoomFrames zoomRotation scaleProportion fuel (i + 1) scale1
    else []

/-- The viewports of the frames `mainVideo` writes to the standard output, in
order, once `GetCalculateColor` has succeeded.  `pow` is `math.Pow` and `pi`
is `math.Pi`. -/
def mainVideo.frames [FloorRing α] (pow : α → α → α) (pi : α) (c : Config α) :
    List (Viewport α) :=
  let initialFrames := toInt (c.InitialImageTime * ((c.FramesPerSecond : Int) : α))
  let zoomFrames := toInt (c.ZoomTime * ((c.FramesPerSecond : Int) : α))
  let zoomRotation := c.Rotation - c.InitialRotation + ((c.ZoomRotation : Int) : α) * 2 * pi
  let scaleProportion := pow (c.Scale / c.InitialScale) (1 / ((zoomFrames : Int) : α))
  let finalFrames := toInt (c.FinalImageTime * ((c.FramesPerSecond : Int) : α))
  List.replicate initialFrames.toNat ⟨c.CenterX, c.CenterY, c.InitialScale, c.InitialRotation⟩
    ++ mainVideo.zoom c zoomFrames zoomRotation scaleProportion zoomFrames.toNat 0 c.InitialScale
    ++ List.replicate finalFrames.toNat ⟨c.CenterX, c.CenterY, c.Scale, c.Rotation⟩

/-- Go `func mainVideo(c mandelbrot.Config) error`, given the outcome `loaded`
of `LoadColors`: the error returned before any frame is written, or the
viewports of the frames written. -/
def mainVideo [FloorRing α] (pow : α → α → α) (pi : α) (c : Config α)
    (loaded : Except String (List Color)) : Except String (List (Viewport α)) :=
  match GetCalculateColor c loaded with
  | .error err => .error err
  | .ok _ => .ok (mainVideo.frames pow pi c)


/-! ## The special values of `float64` -/

/-- A `float64` with its special values: not-a-number, an infinity
(`inf true` is the negative one) or a finite value.  A finite value is a
rational: the rounding of a finite result to 53 bits, signed zeros and
subnormal numbers are not modelled; overflow to an infinity and the arithmetic
of the special values are. -/
inductive F64 where
  | nan
  | inf (negative : Bool)
  | fin (q : ℚ)
deriving DecidableEq

/-- The least magnitude that rounds to an infinity: half a unit in the last
place above the largest finite `float64`. -/
def F64.overflow : ℚ :=
  2 ^ 1024 - 2 ^ 970

/-- The `float64` of an exact result: an infinity from `F64.overflow` on. -/
def F64.ofRat (q : ℚ) : F64 :=
  if F64.overflow ≤ q then .inf false
  else if q ≤ -F64.overflow then .inf true
  else .fin q

/-- Go's conversion `float64(i)` of an `int`. -/
def F64.ofInt (i : Int) : F64 :=
  .fin (i : ℚ)

/-- Multiplication: not-a-number when an operand is, or for an infinity times
zero. -/
def F64.mul : F64 → F64 → F64
  | .nan, _ => .nan
  | _, .nan => .nan
  | .inf s, .inf t => .inf (s != t)
  | .inf s, .fin q => if q = 0 then .nan else .inf (s != decide (q < 0))
  | .fin p, .inf t => if p = 0 then .nan else .inf (decide (p < 0) != t)
  | .fin p, .fin q => F64.ofRat (p * q)

/-- Addition: not-a-number when an operand is, or for the sum of the two
opposite infinities. -/
def F64.add : F64 → F64 → F64
  | .nan, _ => .nan
  | _, .nan => .nan
  | .inf s, .inf t => if s = t then .inf s else .nan
  | .inf s, .fin _ => .inf s
  | .fin _, .inf t => .inf t
  | .fin p, .fin q => F64.ofRat (p + q)

/-- Negation. -/
def F64.neg : F64 → F64
  | .nan => .nan
  | .inf s => .inf (!s)
  | .fin q => .fin (-q)

/-- Subtraction: in particular the difference of two equal infinities is
not-a-number. -/
def F64.sub (x y : F64) : F64 :=
  F64.add x (F64.neg y)

/-- Division: not-a-number when an operand is, for an infinity by an infinity
and for zero by zero; a zero divisor counts as positive. -/
def F64.div : F64 → F64 → F64
  | .nan, _ => .nan
  | _, .nan => .nan
  | .inf _, .inf _ => .nan
  | .inf s, .fin q => .inf (s != decide (q < 0))
  | .fin _, .inf _ => .fin 0
  | .fin p, .fin q =>
    if q = 0 then (if p = 0 then .nan else .inf (decide (p < 0)))
    else F64.ofRat (p / q)

/-- The comparison `x < y`: false when an operand is not-a-number. -/
def F64.lt : F64 → F64 → Bool
  | .nan, _ => false
  | _, .nan => false
  | .inf s, .inf t => s && !t
  | .inf s, .fin _ => s
  | .fin _, .inf t => !t
  | .fin p, .fin q => decide (p < q)

/-- The comparison `x <= y`: false when an operand is not-a-number. -/
def F64.le : F64 → F64 → Bool
  | .nan, _ => false
  | _, .nan => false
  | .inf s, .inf t => s || !t
  | .inf s, .fin _ => s
  | .fin _, .inf t => !t
  | .fin p, .fin q => decide (p ≤ q)

/-- Go's `math.Log`: not-a-number of not-a-number and of a negative argument,
the positive infinity of itself, the negative infinity of zero; `logFin` is the
logarithm of a positive finite argument. -/
def F64.Log (logFin : ℚ → ℚ) : F64 → F64
  | .nan => .nan
  | .inf s => if s then .nan else .inf false
  | .fin q => if q < 0 then .nan else if q = 0 then .inf true else F64.ofRat (logFin q)

/-- Go's `math.Floor`: the special values are returned unchanged. -/
def F64.Floor : F64 → F64
  | .nan => .nan
  | .inf s => .inf s
  | .fin q => .fin ((⌊q⌋ : Int) : ℚ)

/-- Go's `math.Mod(x, y)`: not-a-number when `x` is an infinity, when `y` is
zero and when an operand is not-a-number; `x` when `y` is an infinity. -/
def F64.Mod : F64 → F64 → F64
  | .nan, _ => .nan
  | _, .nan => .nan
  | .inf _, _ => .nan
  | .fin p, .inf _ => .fin p
  | .fin p, .fin q => if q = 0 then .nan else .fin (Mandelbrot.Mod p q)

/-- Go's conversion `int(x)` of a `float64`: truncation toward zero when the
result fits 64 bits; otherwise, and for the special values, the result is
implementation-dependent, `indefinite` (on amd64 the least `int`, `-2^63`). -/
def F64.toInt (indefinite : Int) : F64 → Int
  | .nan => indefinite
  | .inf _ => indefinite
  | .fin q =>
    if -2 ^ 63 ≤ Mandelbrot.toInt q ∧ Mandelbrot.toInt q < 2 ^ 63 then Mandelbrot.toInt q
    else indefinite

/-- The loop of `CalculateSet` over `float64` with its special values: the
same statements as `CalculateSet.loop`. -/
def F64.CalculateSet.loop (MaxIteration : Int) (a b : F64) :
    Nat → Int → F64 → F64 → Int × F64 × F64
  | 0, iteration, aCurrent, bCurrent => (iteration, aCurrent, bCurrent)
  | fuel + 1, iteration, aCurrent, bCurrent =>
    if iteration < MaxIteration then
      let aSquared := F64.mul aCurrent aCurrent
      let bSquared := F64.mul bCurrent bCurrent
      let current := F64.add aSquared bSquared
      let aTemp := F64.add (F64.sub aSquared bSquared) a
      let bNext := F64.add (F64.mul (F64.mul (.fin 2) aCurrent) bCurrent) b
      if F64.lt (.fin 64) current then (iteration, aTemp, bNext)
      else F64.CalculateSet.loop MaxIteration a b fuel (iteration + 1) aTemp bNext
    else (iteration, aCurrent, bCurrent)

/-- The smoothing block of `CalculateSet` over `float64` with its special
values: the same statements as `CalculateSet.color`. -/
def F64.CalculateSet.color (logFin : ℚ → ℚ) (config : Config F64)
    (iteration : Int) (aCurrent bCurrent : F64) : F64 :=
  if iteration < config.MaxIteration then
    let logZn := F64.div
      (F64.Log logFin (F64.add (F64.mul aCurrent aCurrent) (F64.mul bCurrent bCurrent)))
      (.fin 2)
    let nu := F64.div (F64.Log logFin (F64.div logZn (F64.Log logFin (.fin 2))))
      (F64.Log logFin (.fin 2))
    let color := F64.sub (F64.add (F64.ofInt iteration) (.fin 1)) nu
    if F64.lt color (.fin 0) then .fin 0 else color
  else .fin 0

/-- Go `func CalculateSet` over `float64` with its special values: the same
statements as `CalculateSet`. -/
def F64.CalculateSet (logFin : ℚ → ℚ) (config : Config F64) (a b : F64) :
    Bool × Int × F64 :=
  let st := F64.CalculateSet.loop config.MaxIteration a b config.MaxIteration.toNat 0
    (.fin 0) (.fin 0)
  (decide (st.1 = config.MaxIteration), st.1,
    F64.CalculateSet.color logFin config st.1 st.2.1 st.2.2)

/-- The configuration holding the `env-default` value of every field, over
`float64` with its special values. -/
def F64.defaultConfig : Config F64 where
  RunType := "image"
  MaxIteration := 1000
  ColorsFilePath := "default.pal"
  ColorCalc := "smooth"
  ImageWidth := 1920
  ImageHeight := 1080
  CenterX := .fin 0
  CenterY := .fin 0
  Scale := .fin (3 / 1000)
  Rotation := .fin 0
  XLines := ""
  YLines := ""
  FramesPerSecond := 60
  InitialImageTime := .fin 1
  InitialScale := .fin (3 / 1000)
  InitialRotation := .fin 0
  ZoomTime := .fin 10
  ZoomRotation := 0
  FinalImageTime := .fin 1

/-- The closure returned by `GetCalculateColor` over `float64` with its special
values: the same statements as `smoothColor`. -/
def F64.smoothColor (indefinite : Int) (colors : List Color) (inSet : Bool)
    (_escapeIteration : Int) (escapeValue : F64) : Option Color :=
  if inSet then some ⟨0, 0, 0⟩
  else
    let i := F64.toInt indefinite (F64.Floor escapeValue)
    let s := F64.Mod escapeValue (.fin 1)
    (goMod (i + 1) colors.length).bind fun i1 =>
    (index colors i1).bind fun c1 =>
    (goMod i colors.length).bind fun i2 =>
    (index colors i2).bind fun c2 =>
    let r := F64.toInt indefinite
      (F64.add (F64.mul (F64.ofInt c1.R) s) (F64.mul (F64.ofInt c2.R) (F64.sub (.fin 1) s)))
    let g := F64.toInt indefinite
      (F64.add (F64.mul (F64.ofInt c1.G) s) (F64.mul (F64.ofInt c2.G) (F64.sub (.fin 1) s)))
    let b := F64.toInt indefinite
      (F64.add (F64.mul (F64.ofInt c1.B) s) (F64.mul (F64.ofInt c2.B) (F64.sub (.fin 1) s)))
    some ⟨r, g, b⟩

/-! ## Stand-ins for evaluation -/

/-- The default configuration with the iteration budget `M`. -/
def budgetConfig (M : Int) : Config α :=
  { (defaultConfig : Config α) with MaxIteration := M }

/-- An executable record over `ℚ`, for evaluating the definitions on concrete
inputs: the rotation whose cosine is `3/5` and sine `4/5`, and `x - 1` in the
place of the logarithm. -/
def ratFns : MathFns ℚ :=
  ⟨fun x => x - 1, fun _ => 3 / 5, fun _ => 4 / 5⟩

/-- An executable stand-in over `ℚ` for `math.Pow` on the configuration
`zoomConfig`: the square root of 4. -/
def ratPow : ℚ → ℚ → ℚ :=
  fun _ _ => 2

/-- A video configuration with two frames a second: an initial hold of one
second, a zoom of one second from scale 1 to scale 4 while turning from 0 to 1
radian, and a final hold of half a second. -/
def zoomConfig : Config α :=
  { (defaultConfig : Config α) with
    FramesPerSecond := 2, InitialImageTime := 1, ZoomTime := 1, FinalImageTime := 1 / 2,
    InitialScale := 1, Scale := 4, InitialRotation := 0, Rotation := 1 }

/-- A video configuration with one frame a second and an initial hold of nine
tenths of a second, no zoom and no final hold. -/
def holdConfig : Config α :=
  { (defaultConfig : Config α) with
    FramesPerSecond := 1, InitialImageTime := 9 / 10, ZoomTime := 0, FinalImageTime := 0 }

/-- A video configuration with one frame a second, no holds and a zoom of one
second from scale 1 to scale 4 while turning from 0 to 1 radian. -/
def turnConfig : Config α :=
  { (defaultConfig : Config α) with
    FramesPerSecond := 1, InitialImageTime := 0, ZoomTime := 1, FinalImageTime := 0,
    InitialScale := 1, Scale := 4, InitialRotation := 0, Rotation := 1 }

end Defs

section Lemmas

variable {α : Type} [LinearOrderedField α]

/-! ## The loop of `CalculateSet` -/

theorem CalculateSet.loop_zero (M : Int) (a b : α) (it : Int) (ac bc : α) :
    CalculateSet.loop M a b 0 it ac bc = (it, ac, bc) := rfl

theorem CalculateSet.loop_succ (M : Int) (a b : α) (fuel : Nat) (it : Int) (ac bc : α) :
    CalculateSet.loop M a b (fuel + 1) it ac bc =
      if it < M then
        if ac * ac + bc * bc > 64 then (it, ac * ac - bc * bc + a, 2 * ac * bc + b)
        else CalculateSet.loop M a b fuel (it + 1) (ac * ac - bc * bc + a) (2 * ac * bc + b)
      else (it, ac, bc) := rfl

/-- The pass bound is never what stops the loop: any two bounds of at least
`MaxIteration - iteration` passes give the same final loop variables. -/
theorem CalculateSet.loop_fuel (M : Int) (a b : α) :
    ∀ (fuel fuel' : Nat) (it : Int) (ac bc : α),
      (M - it).toNat ≤ fuel → (M - it).toNat ≤ fuel' →
      CalculateSet.loop M a b fuel it ac bc = CalculateSet.loop M a b fuel' it ac bc := by
  intro fuel
  induction fuel with
  | zero =>
    intro fuel' it ac bc h _
    have hit : ¬ it < M := by omega
    cases fuel' with
    | zero => rfl
    | succ f => rw [CalculateSet.loop_zero, CalculateSet.loop_succ, if_neg hit]
  | succ f ih =>
    intro fuel' it ac bc h h'
    cases fuel' with
    | zero =>
      have hit : ¬ it < M := by omega
      rw [CalculateSet.loop_zero, CalculateSet.loop_succ, if_neg hit]
    | succ f' =>
      rw [CalculateSet.loop_succ, CalculateSet.loop_succ]
      by_cases hit : it < M
      · rw [if_pos hit, if_pos hit]
        by_cases hc : ac * ac + bc * bc > 64
        · rw [if_pos hc, if_pos hc]
        · rw [if_neg hc, if_neg hc]
          exact ih f' (it + 1) _ _ (by omega) (by omega)
      · rw [if_neg hit, if_neg hit]

theorem orbit_succ (a b : α) (n : Nat) :
    orbit a b (n + 1) =
      ((orbit a b n).1 * (orbit a b n).1 - (orbit a b n).2 * (orbit a b n).2 + a,
        2 * (orbit a b n).1 * (orbit a b n).2 + b) := rfl

/-- What the loop computes, started on the orbit value `z_n` at `iteration = n`:
it ends at the least index `k ≥ n` whose orbit value has escaped, holding
`z_(k+1)`, or at `k = MaxIteration` holding `z_k`. -/
theorem CalculateSet.loop_orbit (M : Int) (a b : α) :
    ∀ (fuel n : Nat), (n : Int) + fuel = M → (∀ j, j < n → ¬ escaped a b j) →
      ∃ k : Nat,
        (CalculateSet.loop M a b fuel n (orbit a b n).1 (orbit a b n).2).1 = (k : Int) ∧
        n ≤ k ∧ (∀ j, j < k → ¬ escaped a b j) ∧
        (((k : Int) < M ∧ escaped a b k ∧
            (CalculateSet.loop M a b fuel n (orbit a b n).1 (orbit a b n).2).2
              = orbit a b (k + 1)) ∨
          ((k : Int) = M ∧
            (CalculateSet.loop M a b fuel n (orbit a b n).1 (orbit a b n).2).2
              = orbit a b k)) := by
  intro fuel
  induction fuel with
  | zero =>
    intro n hn hlt
    refine ⟨n, rfl, le_refl n, hlt, Or.inr ⟨by simpa using hn, rfl⟩⟩
  | succ f ih =>
    intro n hn hlt
    have hit : (n : Int) < M := by omega
    rw [CalculateSet.loop_succ, if_pos hit]
    by_cases hc : (orbit a b n).1 * (orbit a b n).1 + (orbit a b n).2 * (orbit a b n).2 > 64
    · rw [if_pos hc]
      exact ⟨n, rfl, le_refl n, hlt, Or.inl ⟨hit, hc, rfl⟩⟩
    · rw [if_neg hc]
      have hlt' : ∀ j, j < n + 1 → ¬ escaped a b j := by
        intro j hj
        rcases Nat.lt_succ_iff_lt_or_eq.mp hj with h | h
        · exact hlt j h
        · subst h; exact hc
      have hn' : ((n + 1 : Nat) : Int) + f = M := by push_cast; omega
      obtain ⟨k, hk1, hk2, hk3, hk4⟩ := ih (n + 1) hn' hlt'
      rw [orbit_succ] at hk1 hk4
      have hcast : ((n + 1 : Nat) : Int) = (n : Int) + 1 := by push_cast; rfl
      rw [hcast] at hk1 hk4
      exact ⟨k, hk1, by omega, hk3, hk4⟩

/-- The final loop variables of `CalculateSet` for a non-negative budget. -/
theorem CalculateSet.final_orbit (config : Config α) (a b : α)
    (hM : 0 ≤ config.MaxIteration) :
    ∃ k : Nat,
      (CalculateSet.final config a b).1 = (k : Int) ∧
      (∀ j, j < k → ¬ escaped a b j) ∧
      (((k : Int) < config.MaxIteration ∧ escaped a b k ∧
          (CalculateSet.final config a b).2 = orbit a b (k + 1)) ∨
        ((k : Int) = config.MaxIteration ∧
          (CalculateSet.final config a b).2 = orbit a b k)) := by
  have h := CalculateSet.loop_orbit config.MaxIteration a b config.MaxIteration.toNat 0
    (by simp [Int.toNat_of_nonneg hM]) (by intro j hj; omega)
  obtain ⟨k, hk1, _, hk3, hk4⟩ := h
  exact ⟨k, hk1, hk3, hk4⟩

/-- With a negative budget the loop body never runs. -/
theorem CalculateSet.final_neg (config : Config α) (a b : α)
    (hM : config.MaxIteration < 0) :
    CalculateSet.final config a b = (0, 0, 0) := by
  unfold CalculateSet.final
  have : config.MaxIteration.toNat = 0 := by omega
  rw [this]; rfl


/-- The iteration count of `CalculateSet` for a non-negative budget: a natural
number `k` below which no orbit value has escaped, and either `k` is below the
budget and `z_k` has escaped, or `k` is the budget. -/
theorem CalculateSet.count_spec (m : MathFns α) (config : Config α) (a b : α)
    (hM : 0 ≤ config.MaxIteration) :
    ∃ k : Nat,
      (CalculateSet m config a b).2.1 = (k : Int) ∧
      (∀ j, j < k → ¬ escaped a b j) ∧
      (((k : Int) < config.MaxIteration ∧ escaped a b k) ∨
        (k : Int) = config.MaxIteration) := by
  obtain ⟨k, hk1, hk2, hk3⟩ := CalculateSet.final_orbit config a b hM
  refine ⟨k, hk1, hk2, ?_⟩
  rcases hk3 with ⟨h1, h2, _⟩ | ⟨h1, _⟩
  · exact Or.inl ⟨h1, h2⟩
  · exact Or.inr h1

/-- The membership flag of `CalculateSet` is the test `iteration == MaxIteration`. -/
theorem CalculateSet.inSet_eq (m : MathFns α) (config : Config α) (a b : α) :
    (CalculateSet m config a b).1 =
      decide ((CalculateSet m config a b).2.1 = config.MaxIteration) := rfl

/-- A point none of whose orbit values escapes is reported in the set, with the
whole budget as its count and the zero smooth value. -/
theorem CalculateSet.of_bounded (m : MathFns α) (config : Config α) (a b : α)
    (hM : 0 ≤ config.MaxIteration) (hb : ∀ n, ¬ escaped a b n) :
    CalculateSet m config a b = (true, config.MaxIteration, 0) := by
  obtain ⟨k, hk1, _, hk3⟩ := CalculateSet.final_orbit config a b hM
  have hk : (CalculateSet.final config a b).1 = config.MaxIteration := by
    rcases hk3 with ⟨_, h2, _⟩ | ⟨h1, _⟩
    · exact absurd h2 (hb k)
    · rw [hk1, h1]
  simp [CalculateSet, CalculateSet.color, hk]

/-- The loop on the point `(1, 0)` under any budget of at least 5: it stops at
`iteration = 4`, where `|z_4|^2 = 676 > 64`, holding `z_5 = 677`. -/
theorem CalculateSet.final_one_zero (config : Config α) (hM : 5 ≤ config.MaxIteration) :
    CalculateSet.final config (1 : α) 0 = (4, 677, 0) := by
  obtain ⟨n, hn⟩ : ∃ n : Nat, config.MaxIteration.toNat = n + 5 :=
    ⟨config.MaxIteration.toNat - 5, by omega⟩
  have h0 : (0 : Int) < config.MaxIteration := by omega
  have h1 : (1 : Int) < config.MaxIteration := by omega
  have h2 : (2 : Int) < config.MaxIteration := by omega
  have h3 : (3 : Int) < config.MaxIteration := by omega
  have h4 : (4 : Int) < config.MaxIteration := by omega
  unfold CalculateSet.final
  rw [hn]
  simp only [CalculateSet.loop_succ]
  norm_num [h0, h1, h2, h3, h4]

/-- The loop on the point `(0, 2)` under any budget of at least 4: it stops at
`iteration = 3`, where `|z_3|^2 = 340 > 64`, holding `z_4 = -52 - 334i`. -/
theorem CalculateSet.final_zero_two (config : Config α) (hM : 4 ≤ config.MaxIteration) :
    CalculateSet.final config (0 : α) 2 = (3, -52, -334) := by
  obtain ⟨n, hn⟩ : ∃ n : Nat, config.MaxIteration.toNat = n + 4 :=
    ⟨config.MaxIteration.toNat - 4, by omega⟩
  have h0 : (0 : Int) < config.MaxIteration := by omega
  have h1 : (1 : Int) < config.MaxIteration := by omega
  have h2 : (2 : Int) < config.MaxIteration := by omega
  have h3 : (3 : Int) < config.MaxIteration := by omega
  unfold CalculateSet.final
  rw [hn]
  simp only [CalculateSet.loop_succ]
  norm_num [h0, h1, h2, h3]

/-- With `R^2 + S^2 = N^2 * M`, `M ≤ N` and `N > 64`: `N^2 + 2 * R + M > 1`. -/
theorem sq_bound_aux (N R S M : α)
    (hN : 64 < N) (hM0 : 0 ≤ M) (hM : M ≤ N) (hcs : R * R + S * S = N * N * M) :
    1 < N * N + 2 * R + M := by
  have hNpos : 0 < N := lt_trans (by norm_num) hN
  have hNN : 0 < N * N := mul_pos hNpos hNpos
  have hRR : R * R ≤ N * N * N := by
    have h1 : R * R ≤ N * N * M := by
      rw [← hcs]; exact le_add_of_nonneg_right (mul_self_nonneg S)
    exact le_trans h1 (mul_le_mul_of_nonneg_left hM (le_of_lt hNN))
  have h64 : 64 * (N * N * N) < N * (N * N * N) :=
    mul_lt_mul_of_pos_right hN (mul_pos hNN hNpos)
  have hR8 : -(N * N) < 8 * R := by
    by_contra hcon
    push_neg at hcon
    have h1 : N * N ≤ -(8 * R) := by linarith
    have h2 : (N * N) * (N * N) ≤ (-(8 * R)) * (-(8 * R)) :=
      mul_self_le_mul_self (le_of_lt hNN) h1
    have h3 : (-(8 * R)) * (-(8 * R)) = 64 * (R * R) := by ring
    have h4 : N * (N * N * N) = (N * N) * (N * N) := by ring
    rw [h3] at h2
    rw [h4] at h64
    linarith
  have hN1 : 64 * N < N * N := mul_lt_mul_of_pos_right hN hNpos
  linarith

/-- If `|z|^2 > 64` and `|c|^2 ≤ |z|^2` then `|z^2 + c|^2 > 1`. -/
theorem next_normSq_gt_one (x y a b : α)
    (hN : 64 < x * x + y * y) (hc : a * a + b * b ≤ x * x + y * y) :
    1 < (x * x - y * y + a) * (x * x - y * y + a) + (2 * x * y + b) * (2 * x * y + b) := by
  have hT : (x * x - y * y + a) * (x * x - y * y + a) + (2 * x * y + b) * (2 * x * y + b)
      = (x * x + y * y) * (x * x + y * y) + 2 * ((x * x - y * y) * a + 2 * x * y * b)
        + (a * a + b * b) := by ring
  have hcs : ((x * x - y * y) * a + 2 * x * y * b) * ((x * x - y * y) * a + 2 * x * y * b)
      + ((x * x - y * y) * b - 2 * x * y * a) * ((x * x - y * y) * b - 2 * x * y * a)
      = (x * x + y * y) * (x * x + y * y) * (a * a + b * b) := by ring
  rw [hT]
  exact sq_bound_aux _ _ _ _ hN (add_nonneg (mul_self_nonneg a) (mul_self_nonneg b)) hc hcs

theorem normSq_zero (a b : α) : normSq a b 0 = 0 := by
  simp [normSq, orbit]

theorem normSq_one (a b : α) : normSq a b 1 = a * a + b * b := by
  simp [normSq, orbit]

/-- At the first escaped index `k`, the next orbit value `z_(k+1)` has squared
magnitude above 1. -/
theorem normSq_succ_first_escape (a b : α) (k : Nat) (hesc : escaped a b k)
    (hlt : ∀ j, j < k → ¬ escaped a b j) : 1 < normSq a b (k + 1) := by
  have hk0 : k ≠ 0 := by
    intro h
    rw [h] at hesc
    unfold escaped at hesc
    rw [normSq_zero] at hesc
    exact absurd hesc (by norm_num)
  have hc : normSq a b 1 ≤ normSq a b k := by
    rcases Nat.lt_or_ge 1 k with h | h
    · have h1 := hlt 1 h
      unfold escaped at h1 hesc
      exact le_of_lt (lt_of_le_of_lt (not_lt.mp h1) hesc)
    · have : k = 1 := by omega
      rw [this]
  rw [normSq_one] at hc
  have := next_normSq_gt_one (orbit a b k).1 (orbit a b k).2 a b hesc hc
  unfold normSq
  rw [orbit_succ]
  exact this

/-- The smooth value of `CalculateSet` is never negative. -/
theorem CalculateSet.color_nonneg (m : MathFns α) (config : Config α) (it : Int)
    (ac bc : α) : 0 ≤ CalculateSet.color m config it ac bc := by
  unfold CalculateSet.color
  simp only
  split_ifs with h1 h2
  · exact le_refl 0
  · exact not_lt.mp h2
  · exact le_refl 0

end Lemmas

/-! ## Escape-time evaluator: the claims -/

section EscapeTime

variable {α : Type} [LinearOrderedField α]

/-- C1. For a budget `MaxIteration ≥ 0`, the iteration count of `CalculateSet`
is `min MaxIteration k`, where `k` is the least `n` with `|z_n|^2 > 64` on the
orbit `z_0 = 0`, `z_(n+1) = z_n^2 + c`; and it is `MaxIteration` when no such
`n` below `MaxIteration` exists. -/
theorem CalculateSet_count_eq_min (m : MathFns α) (config : Config α) (a b : α)
    (hM : 0 ≤ config.MaxIteration) :
    (∀ h : ∃ n, escaped a b n,
        (CalculateSet m config a b).2.1 = min config.MaxIteration (Nat.find h : Int)) ∧
    ((¬ ∃ n : Nat, (n : Int) < config.MaxIteration ∧ escaped a b n) →
        (CalculateSet m config a b).2.1 = config.MaxIteration) := by
  obtain ⟨k, hk1, hk2, hk3⟩ := CalculateSet.count_spec m config a b hM
  constructor
  · intro h
    rcases hk3 with ⟨hlt, hesc⟩ | heq
    · have hfind : Nat.find h = k := (Nat.find_eq_iff h).mpr ⟨hesc, hk2⟩
      rw [hk1, hfind, min_eq_right (le_of_lt hlt)]
    · have hge : k ≤ Nat.find h := by
        by_contra hcon
        exact hk2 _ (Nat.lt_of_not_le hcon) (Nat.find_spec h)
      have hge' : config.MaxIteration ≤ (Nat.find h : Int) := by
        rw [← heq]; exact_mod_cast hge
      rw [hk1, heq, min_eq_left hge']
  · intro hno
    rcases hk3 with ⟨hlt, hesc⟩ | heq
    · exact absurd ⟨k, hlt, hesc⟩ hno
    · rw [hk1, heq]

/-- C1, at the point `(1, 0)` with the budget 1000 over `ℚ`. -/
theorem CalculateSet_count_eq_min_witness :
    (0 : Int) ≤ (defaultConfig : Config ℚ).MaxIteration ∧
    ((∀ h : ∃ n, escaped (1 : ℚ) 0 n,
        (CalculateSet ratFns defaultConfig (1 : ℚ) 0).2.1
          = min (defaultConfig : Config ℚ).MaxIteration (Nat.find h : Int)) ∧
    ((¬ ∃ n : Nat, (n : Int) < (defaultConfig : Config ℚ).MaxIteration ∧
          escaped (1 : ℚ) 0 n) →
        (CalculateSet ratFns defaultConfig (1 : ℚ) 0).2.1
          = (defaultConfig : Config ℚ).MaxIteration)) :=
  ⟨by decide, CalculateSet_count_eq_min ratFns defaultConfig 1 0 (by decide)⟩


/-- C2. On the test's input (budget 1000, escape radius squared 64) the code
reports the point `(1, 0)` as escaping at count 4 and the point `(0, 2)` as
escaping at count 3: the orbit of `(1, 0)` is `0, 1, 2, 5, 26` with
`|5|^2 = 25 ≤ 64 < 676`, that of `(0, 2)` is `0, 2i, -4+2i, 12-14i` with
`|-4+2i|^2 = 20 ≤ 64 < 340`.  The counts 3 and 2 expected by `TestCalculate`
are not what `CalculateSet` returns. -/
theorem CalculateSet_test_escaping (m : MathFns α) :
    (CalculateSet m defaultConfig (1 : α) 0).1 = false ∧
    (CalculateSet m defaultConfig (1 : α) 0).2.1 = 4 ∧
    (CalculateSet m defaultConfig (0 : α) 2).1 = false ∧
    (CalculateSet m defaultConfig (0 : α) 2).2.1 = 3 := by
  have hM : (defaultConfig : Config α).MaxIteration = 1000 := rfl
  have h1 := CalculateSet.final_one_zero (defaultConfig : Config α) (by rw [hM]; decide)
  have h2 := CalculateSet.final_zero_two (defaultConfig : Config α) (by rw [hM]; decide)
  refine ⟨?_, ?_, ?_, ?_⟩
  · rw [CalculateSet.inSet_eq]; simp only [CalculateSet, h1, hM]; decide
  · simp only [CalculateSet, h1]
  · rw [CalculateSet.inSet_eq]; simp only [CalculateSet, h2, hM]; decide
  · simp only [CalculateSet, h2]


/-- C3. For every budget `MaxIteration ≥ 0`, `CalculateSet` reports each of
the points `(0, 0)`, `(-1, 0)` and `(0, 1)` as in the set with the whole budget
as iteration count; no value of their orbits has squared magnitude above 64. -/
theorem CalculateSet_test_inSet (m : MathFns α) (config : Config α)
    (hM : 0 ≤ config.MaxIteration) :
    ((CalculateSet m config (0 : α) 0).1 = true ∧
      (CalculateSet m config (0 : α) 0).2.1 = config.MaxIteration ∧
      ∀ n, normSq (0 : α) 0 n ≤ 64) ∧
    ((CalculateSet m config (-1 : α) 0).1 = true ∧
      (CalculateSet m config (-1 : α) 0).2.1 = config.MaxIteration ∧
      ∀ n, normSq (-1 : α) 0 n ≤ 64) ∧
    ((CalculateSet m config (0 : α) 1).1 = true ∧
      (CalculateSet m config (0 : α) 1).2.1 = config.MaxIteration ∧
      ∀ n, normSq (0 : α) 1 n ≤ 64) := by
  have o1 : ∀ n, orbit (0 : α) 0 n = (0, 0) := by
    intro n
    induction n with
    | zero => rfl
    | succ n ih => rw [orbit_succ, ih]; norm_num
  have o2 : ∀ n, orbit (-1 : α) 0 n = (0, 0) ∨ orbit (-1 : α) 0 n = (-1, 0) := by
    intro n
    induction n with
    | zero => exact Or.inl rfl
    | succ n ih =>
      rcases ih with h | h
      · right; rw [orbit_succ, h]; norm_num
      · left; rw [orbit_succ, h]; norm_num
  have o3 : ∀ n, orbit (0 : α) 1 n = (0, 0) ∨ orbit (0 : α) 1 n = (0, 1) ∨
      orbit (0 : α) 1 n = (-1, 1) ∨ orbit (0 : α) 1 n = (0, -1) := by
    intro n
    induction n with
    | zero => exact Or.inl rfl
    | succ n ih =>
      rcases ih with h | h | h | h
      · right; left; rw [orbit_succ, h]; norm_num
      · right; right; left; rw [orbit_succ, h]; norm_num
      · right; right; right; rw [orbit_succ, h]; norm_num
      · right; right; left; rw [orbit_succ, h]; norm_num
  have b1 : ∀ n, normSq (0 : α) 0 n ≤ 64 := by
    intro n; unfold normSq; rw [o1 n]; norm_num
  have b2 : ∀ n, normSq (-1 : α) 0 n ≤ 64 := by
    intro n; unfold normSq
    rcases o2 n with h | h <;> rw [h] <;> norm_num
  have b3 : ∀ n, normSq (0 : α) 1 n ≤ 64 := by
    intro n; unfold normSq
    rcases o3 n with h | h | h | h <;> rw [h] <;> norm_num
  have e1 := CalculateSet.of_bounded m config (0 : α) 0 hM (fun n => not_lt.mpr (b1 n))
  have e2 := CalculateSet.of_bounded m config (-1 : α) 0 hM (fun n => not_lt.mpr (b2 n))
  have e3 := CalculateSet.of_bounded m config (0 : α) 1 hM (fun n => not_lt.mpr (b3 n))
  rw [e1, e2, e3]
  exact ⟨⟨rfl, rfl, b1⟩, ⟨rfl, rfl, b2⟩, ⟨rfl, rfl, b3⟩⟩

/-- C3, at the test's budget 1000 over `ℚ`. -/
theorem CalculateSet_test_inSet_witness :
    (0 : Int) ≤ (defaultConfig : Config ℚ).MaxIteration ∧
    (((CalculateSet ratFns defaultConfig (0 : ℚ) 0).1 = true ∧
      (CalculateSet ratFns defaultConfig (0 : ℚ) 0).2.1
        = (defaultConfig : Config ℚ).MaxIteration ∧
      ∀ n, normSq (0 : ℚ) 0 n ≤ 64) ∧
    ((CalculateSet ratFns defaultConfig (-1 : ℚ) 0).1 = true ∧
      (CalculateSet ratFns defaultConfig (-1 : ℚ) 0).2.1
        = (defaultConfig : Config ℚ).MaxIteration ∧
      ∀ n, normSq (-1 : ℚ) 0 n ≤ 64) ∧
    ((CalculateSet ratFns defaultConfig (0 : ℚ) 1).1 = true ∧
      (CalculateSet ratFns defaultConfig (0 : ℚ) 1).2.1
        = (defaultConfig : Config ℚ).MaxIteration ∧
      ∀ n, normSq (0 : ℚ) 1 n ≤ 64)) :=
  ⟨by decide, CalculateSet_test_inSet ratFns defaultConfig (by decide)⟩

/-- C4. For a fixed point and budgets `0 ≤ m ≤ m'`, the iteration count under
`m` is at most the count under `m'`; and a point reported as escaping at
count `k` under a budget `m ≥ 0` has count `k` under every budget `≥ k`. -/
theorem CalculateSet_count_mono (m : MathFns α) (config config' : Config α) (a b : α)
    (hM : 0 ≤ config.MaxIteration) :
    (config.MaxIteration ≤ config'.MaxIteration →
      (CalculateSet m config a b).2.1 ≤ (CalculateSet m config' a b).2.1) ∧
    ((CalculateSet m config a b).1 = false →
      (CalculateSet m config a b).2.1 ≤ config'.MaxIteration →
      (CalculateSet m config' a b).2.1 = (CalculateSet m config a b).2.1) := by
  obtain ⟨k, hk1, hk2, hk3⟩ := CalculateSet.count_spec m config a b hM
  constructor
  · intro hle
    obtain ⟨k', hk1', hk2', hk3'⟩ :=
      CalculateSet.count_spec m config' a b (le_trans hM hle)
    rw [hk1, hk1']
    by_contra hcon
    have hlt : k' < k := by
      have : (k' : Int) < (k : Int) := lt_of_not_le hcon
      exact_mod_cast this
    rcases hk3' with ⟨_, hesc'⟩ | heq'
    · exact hk2 k' hlt hesc'
    · rcases hk3 with ⟨hltM, _⟩ | heq
      · omega
      · omega
  · intro hin hle
    rw [CalculateSet.inSet_eq, decide_eq_false_iff_not] at hin
    rcases hk3 with ⟨hltM, hesc⟩ | heq
    · have hM' : 0 ≤ config'.MaxIteration := by rw [hk1] at hle; omega
      obtain ⟨k', hk1', hk2', hk3'⟩ := CalculateSet.count_spec m config' a b hM'
      rw [hk1, hk1']
      rw [hk1] at hle
      have hkk : k' = k := by
        rcases hk3' with ⟨_, hesc'⟩ | heq'
        · rcases Nat.lt_trichotomy k' k with h | h | h
          · exact absurd hesc' (hk2 k' h)
          · exact h
          · exact absurd hesc (hk2' k h)
        · rcases Nat.lt_trichotomy k' k with h | h | h
          · omega
          · exact h
          · exact absurd hesc (hk2' k h)
      rw [hkk]
    · exact absurd (hk1.trans heq) hin

/-- C4, at the point `(1, 0)` over `ℚ` for the budgets 6 and 1000: under
both the point is reported as escaping at count 4. -/
theorem CalculateSet_count_mono_witness :
    (0 : Int) ≤ (budgetConfig 6 : Config ℚ).MaxIteration ∧
    (budgetConfig 6 : Config ℚ).MaxIteration ≤ (budgetConfig 1000 : Config ℚ).MaxIteration ∧
    (CalculateSet ratFns (budgetConfig 6) (1 : ℚ) 0).1 = false ∧
    (CalculateSet ratFns (budgetConfig 6) (1 : ℚ) 0).2.1
      ≤ (budgetConfig 1000 : Config ℚ).MaxIteration ∧
    (CalculateSet ratFns (budgetConfig 6) (1 : ℚ) 0).2.1
      ≤ (CalculateSet ratFns (budgetConfig 1000) (1 : ℚ) 0).2.1 ∧
    (CalculateSet ratFns (budgetConfig 1000) (1 : ℚ) 0).2.1
      = (CalculateSet ratFns (budgetConfig 6) (1 : ℚ) 0).2.1 :=
  have h := CalculateSet_count_mono ratFns (budgetConfig 6) (budgetConfig 1000)
    (1 : ℚ) 0 (by decide)
  have h6 : (budgetConfig 6 : Config ℚ).MaxIteration = 6 := rfl
  have e6 := CalculateSet.final_one_zero (budgetConfig 6 : Config ℚ) (by decide)
  have hin : (CalculateSet ratFns (budgetConfig 6) (1 : ℚ) 0).1 = false := by
    rw [CalculateSet.inSet_eq]; simp only [CalculateSet, e6, h6]; decide
  have hle : (CalculateSet ratFns (budgetConfig 6) (1 : ℚ) 0).2.1
      ≤ (budgetConfig 1000 : Config ℚ).MaxIteration := by
    simp only [CalculateSet, e6]; decide
  ⟨by decide, by decide, hin, hle, h.1 (by decide), h.2 hin hle⟩

end EscapeTime

/-! ## Go numeric primitives: lemmas -/

section Primitives

variable {α : Type} [LinearOrderedField α] [FloorRing α]

/-- Converting an integer-valued float gives back the integer. -/
theorem toInt_intCast (z : Int) : toInt ((z : Int) : α) = z := by
  unfold toInt
  split_ifs
  · exact Int.floor_intCast z
  · exact Int.ceil_intCast z

theorem toInt_Floor (x : α) : toInt (Floor x) = ⌊x⌋ := by
  unfold Floor; exact toInt_intCast _

theorem toInt_of_nonneg {x : α} (hx : 0 ≤ x) : toInt x = ⌊x⌋ := by
  unfold toInt; rw [if_pos hx]

/-- On a non-negative float `math.Mod(x, 1.0)` is the fractional part. -/
theorem Mod_one_of_nonneg {x : α} (hx : 0 ≤ x) : Mod x 1 = x - ((⌊x⌋ : Int) : α) := by
  unfold Mod
  rw [div_one, toInt_of_nonneg hx, one_mul]

/-- Rounding an integer-valued float leaves it unchanged. -/
theorem Round_intCast (z : Int) : Round ((z : Int) : α) = ((z : Int) : α) := by
  unfold Round
  have hf : ⌊((z : Int) : α) + 1 / 2⌋ = z := by
    rw [Int.floor_int_add]
    have : ⌊(1 / 2 : α)⌋ = 0 := by
      rw [Int.floor_eq_iff]; constructor <;> norm_num
    rw [this, add_zero]
  have hc : ⌈((z : Int) : α) - 1 / 2⌉ = z := by
    rw [Int.ceil_eq_iff]; constructor <;> norm_num
  split_ifs
  · rw [hf]
  · rw [hc]

/-- Indexing at the image of a natural number below the length succeeds. -/
theorem index_natCast (colors : List Color) (j : Nat) :
    index colors (j : Int) = colors.get? j := by
  unfold index
  rw [if_neg (by omega), Int.toNat_natCast]

/-- The remainder of a non-negative `int` by a non-zero length is the natural
remainder. -/
theorem goMod_natCast (i n : Nat) (hn : n ≠ 0) :
    goMod (i : Int) (n : Int) = some ((i % n : Nat) : Int) := by
  unfold goMod
  rw [if_neg (by exact_mod_cast hn), Int.ofNat_tmod]

/-- The first branch of `smoothColor`: black, whatever the palette. -/
theorem smoothColor_true (colors : List Color) (k : Int) (v : α) :
    smoothColor colors true k v = some ⟨0, 0, 0⟩ := by
  unfold smoothColor
  rw [if_pos rfl]

/-- The palette reads of `smoothColor` at a non-negative index: both succeed. -/
theorem smoothColor_of_nonneg (colors : List Color) (k : Int) (v : α) (i : Nat)
    (hi : toInt (Floor v) = (i : Int)) (hP : colors ≠ []) :
    ∃ c1 c2, colors.get? ((i + 1) % colors.length) = some c1 ∧
      colors.get? (i % colors.length) = some c2 ∧
      smoothColor colors false k v =
        some ⟨toInt ((c1.R : α) * Mod v 1 + (c2.R : α) * (1 - Mod v 1)),
          toInt ((c1.G : α) * Mod v 1 + (c2.G : α) * (1 - Mod v 1)),
          toInt ((c1.B : α) * Mod v 1 + (c2.B : α) * (1 - Mod v 1))⟩ := by
  have hn : colors.length ≠ 0 := by
    intro h; exact hP (List.length_eq_zero.mp h)
  have hpos : 0 < colors.length := Nat.pos_of_ne_zero hn
  have h1 : (i + 1) % colors.length < colors.length := Nat.mod_lt _ hpos
  have h2 : i % colors.length < colors.length := Nat.mod_lt _ hpos
  refine ⟨colors.get ⟨_, h1⟩, colors.get ⟨_, h2⟩, List.get?_eq_get h1,
    List.get?_eq_get h2, ?_⟩
  have hi1 : toInt (Floor v) + 1 = ((i + 1 : Nat) : Int) := by rw [hi]; push_cast; rfl
  unfold smoothColor
  simp only [Bool.false_eq_true, if_false]
  rw [hi1, hi, goMod_natCast _ _ hn, goMod_natCast _ _ hn]
  simp only [Option.bind, index_natCast, List.get?_eq_get h1, List.get?_eq_get h2]

end Primitives

/-! ## Coordinate transform: the round trip -/

section Transform

variable {α : Type} [LinearOrderedField α] [FloorRing α]

/-- C5. For a viewport with `Scale > 0` and a rotation whose cosine and sine
satisfy `cos^2 + sin^2 = 1`, `PlaneToImage` after `ImageToPlane` returns every
integer pixel `(x, y)` itself, so differs from it by at most 1 (here by 0) in
each coordinate.  The bounds on the pixel and on the image size are not needed. -/
theorem PlaneToImage_ImageToPlane (m : MathFns α) (config : Config α) (x y : Int)
    (hS : 0 < config.Scale)
    (hcs : m.Cos config.Rotation * m.Cos config.Rotation
      + m.Sin config.Rotation * m.Sin config.Rotation = 1) :
    PlaneToImage m config (ImageToPlane m config x y).1 (ImageToPlane m config x y).2
      = (x, y) ∧
    |(PlaneToImage m config (ImageToPlane m config x y).1
        (ImageToPlane m config x y).2).1 - x| ≤ 1 ∧
    |(PlaneToImage m config (ImageToPlane m config x y).1
        (ImageToPlane m config x y).2).2 - y| ≤ 1 := by
  have hS' : config.Scale ≠ 0 := ne_of_gt hS
  have key : PlaneToImage m config (ImageToPlane m config x y).1
      (ImageToPlane m config x y).2 = (x, y) := by
    unfold PlaneToImage ImageToPlane
    simp only
    set c := m.Cos config.Rotation
    set s := m.Sin config.Rotation
    set a := ((x : α) - ((config.ImageWidth - 1 : Int) : α) / 2) * config.Scale with ha
    set b := (((config.ImageHeight - 1 : Int) : α) / 2 - (y : α)) * config.Scale with hb
    have e1 : c * (config.CenterX + (c * a - s * b) - config.CenterX)
        + s * (config.CenterY + (s * a + c * b) - config.CenterY) = a := by
      have : c * (config.CenterX + (c * a - s * b) - config.CenterX)
          + s * (config.CenterY + (s * a + c * b) - config.CenterY)
          = (c * c + s * s) * a := by ring
      rw [this, hcs, one_mul]
    have e2 : -s * (config.CenterX + (c * a - s * b) - config.CenterX)
        + c * (config.CenterY + (s * a + c * b) - config.CenterY) = b := by
      have : -s * (config.CenterX + (c * a - s * b) - config.CenterX)
          + c * (config.CenterY + (s * a + c * b) - config.CenterY)
          = (c * c + s * s) * b := by ring
      rw [this, hcs, one_mul]
    have e3 : a / config.Scale + ((config.ImageWidth - 1 : Int) : α) / 2 = ((x : Int) : α) := by
      rw [ha]; field_simp; ring
    have e4 : -b / config.Scale + ((config.ImageHeight - 1 : Int) : α) / 2
        = ((y : Int) : α) := by
      rw [hb]; field_simp; ring
    rw [e1, e2, e3, e4, Round_intCast, Round_intCast, toInt_intCast, toInt_intCast]
  rw [key]
  simp

/-- C5, at pixel `(17, 900)` of the default 1920 by 1080 viewport over `ℚ`,
rotated by the angle with cosine `3/5` and sine `4/5`. -/
theorem PlaneToImage_ImageToPlane_witness :
    (0 : ℚ) < (defaultConfig : Config ℚ).Scale ∧
    ratFns.Cos (defaultConfig : Config ℚ).Rotation * ratFns.Cos (defaultConfig : Config ℚ).Rotation
      + ratFns.Sin (defaultConfig : Config ℚ).Rotation
        * ratFns.Sin (defaultConfig : Config ℚ).Rotation = 1 ∧
    (PlaneToImage ratFns defaultConfig (ImageToPlane ratFns defaultConfig 17 900).1
        (ImageToPlane ratFns defaultConfig 17 900).2 = (17, 900) ∧
      |(PlaneToImage ratFns defaultConfig (ImageToPlane ratFns defaultConfig 17 900).1
        (ImageToPlane ratFns defaultConfig 17 900).2).1 - 17| ≤ 1 ∧
      |(PlaneToImage ratFns defaultConfig (ImageToPlane ratFns defaultConfig 17 900).1
        (ImageToPlane ratFns defaultConfig 17 900).2).2 - 900| ≤ 1) :=
  ⟨by norm_num [defaultConfig], by norm_num [ratFns],
    PlaneToImage_ImageToPlane ratFns defaultConfig 17 900
      (by norm_num [defaultConfig]) (by norm_num [ratFns])⟩

end Transform

/-! ## Colour mapper: the claims -/

section ColourMapper

variable {α : Type} [LinearOrderedField α] [FloorRing α]

/-- C6. For a non-empty palette `P` of length `n`, a smooth value `v ≥ 0` and
`inSet = false`, the smooth colour function returns the colour whose channels
are `trunc (s * P[(i+1) mod n].ch + (1 - s) * P[i mod n].ch)` with
`i = floor v`, `s = v - i`, and `trunc` the truncation toward zero `toInt`. -/
theorem smoothColor_interpolates (P : List Color) (k : Int) (v : α)
    (hP : P ≠ []) (hv : 0 ≤ v) :
    ∃ c1 c2, P.get? ((⌊v⌋.toNat + 1) % P.length) = some c1 ∧
      P.get? (⌊v⌋.toNat % P.length) = some c2 ∧
      smoothColor P false k v =
        some ⟨toInt ((v - ((⌊v⌋ : Int) : α)) * (c1.R : α)
                + (1 - (v - ((⌊v⌋ : Int) : α))) * (c2.R : α)),
          toInt ((v - ((⌊v⌋ : Int) : α)) * (c1.G : α)
                + (1 - (v - ((⌊v⌋ : Int) : α))) * (c2.G : α)),
          toInt ((v - ((⌊v⌋ : Int) : α)) * (c1.B : α)
                + (1 - (v - ((⌊v⌋ : Int) : α))) * (c2.B : α))⟩ := by
  have hfl : 0 ≤ ⌊v⌋ := Int.floor_nonneg.mpr hv
  have hi : toInt (Floor v) = ((⌊v⌋.toNat : Nat) : Int) := by
    rw [toInt_Floor, Int.toNat_of_nonneg hfl]
  obtain ⟨c1, c2, h1, h2, h3⟩ := smoothColor_of_nonneg P k v ⌊v⌋.toNat hi hP
  refine ⟨c1, c2, h1, h2, ?_⟩
  rw [h3, Mod_one_of_nonneg hv]
  simp only [mul_comm]

/-- C6, on the palette `(10,20,30), (250,250,250)` at the smooth value `7/2`
over `ℚ`. -/
theorem smoothColor_interpolates_witness :
    ([⟨10, 20, 30⟩, ⟨250, 250, 250⟩] : List Color) ≠ [] ∧ (0 : ℚ) ≤ 7 / 2 ∧
    ∃ c1 c2,
      ([⟨10, 20, 30⟩, ⟨250, 250, 250⟩] : List Color).get?
        ((⌊(7 / 2 : ℚ)⌋.toNat + 1)
          % ([⟨10, 20, 30⟩, ⟨250, 250, 250⟩] : List Color).length) = some c1 ∧
      ([⟨10, 20, 30⟩, ⟨250, 250, 250⟩] : List Color).get?
        (⌊(7 / 2 : ℚ)⌋.toNat
          % ([⟨10, 20, 30⟩, ⟨250, 250, 250⟩] : List Color).length) = some c2 ∧
      smoothColor [⟨10, 20, 30⟩, ⟨250, 250, 250⟩] false 3 (7 / 2 : ℚ) =
        some ⟨toInt (((7 / 2 : ℚ) - ((⌊(7 / 2 : ℚ)⌋ : Int) : ℚ)) * (c1.R : ℚ)
                + (1 - ((7 / 2 : ℚ) - ((⌊(7 / 2 : ℚ)⌋ : Int) : ℚ))) * (c2.R : ℚ)),
          toInt (((7 / 2 : ℚ) - ((⌊(7 / 2 : ℚ)⌋ : Int) : ℚ)) * (c1.G : ℚ)
                + (1 - ((7 / 2 : ℚ) - ((⌊(7 / 2 : ℚ)⌋ : Int) : ℚ))) * (c2.G : ℚ)),
          toInt (((7 / 2 : ℚ) - ((⌊(7 / 2 : ℚ)⌋ : Int) : ℚ)) * (c1.B : ℚ)
                + (1 - ((7 / 2 : ℚ) - ((⌊(7 / 2 : ℚ)⌋ : Int) : ℚ))) * (c2.B : ℚ))⟩ :=
  ⟨by simp, by norm_num,
    smoothColor_interpolates [⟨10, 20, 30⟩, ⟨250, 250, 250⟩] 3 (7 / 2 : ℚ)
      (by simp) (by norm_num)⟩

/-- C7. On a palette of exactly one colour `c`, the smooth colour function
with `inSet = false` returns `c` for every iteration count and every smooth
value, negative ones included. -/
theorem smoothColor_singleton (c : Color) (k : Int) (v : α) :
    smoothColor [c] false k v = some c := by
  have hR : (c.R : α) * Mod v 1 + (c.R : α) * (1 - Mod v 1) = ((c.R : Int) : α) := by ring
  have hG : (c.G : α) * Mod v 1 + (c.G : α) * (1 - Mod v 1) = ((c.G : Int) : α) := by ring
  have hB : (c.B : α) * Mod v 1 + (c.B : α) * (1 - Mod v 1) = ((c.B : Int) : α) := by ring
  unfold smoothColor
  simp only [Bool.false_eq_true, if_false, goMod, List.length_singleton, Nat.cast_one,
    one_ne_zero, Int.tmod_one, Option.bind, index, lt_self_iff_false, Int.toNat_zero,
    List.get?_cons_zero, hR, hG, hB, toInt_intCast]

/-- C8. With `inSet = true` the smooth colour function returns black
`(0, 0, 0)` for every palette, the empty one included, every iteration count
and every smooth value: the palette is not read. -/
theorem smoothColor_inSet (P : List Color) (k : Int) (v : α) :
    smoothColor P true k v = some ⟨0, 0, 0⟩ :=
  smoothColor_true P k v

end ColourMapper

/-! ## The evaluator feeding the colour mapper -/

section Render

variable {α : Type} [LinearOrderedField α] [FloorRing α]

/-- Over exact arithmetic, where no value is not-a-number: for every point,
every budget and every non-empty palette, the smooth value returned by
`CalculateSet` is `≥ 0`; the smooth colour function applied to the result of
`CalculateSet` returns a colour (no panic); when it reads the palette, both
remainders are defined and lie in `[0, len)`.  Moreover, whenever the smoothing
block runs, the argument of its inner logarithm is above 1, and for any `Log`
that is positive above 1 the argument of the outer logarithm is positive. -/
theorem render_no_error (m : MathFns α) (config : Config α) (a b : α) (P : List Color)
    (hP : P ≠ []) :
    0 ≤ (CalculateSet m config a b).2.2 ∧
    (∃ c, smoothColor P (CalculateSet m config a b).1 (CalculateSet m config a b).2.1
        (CalculateSet m config a b).2.2 = some c) ∧
    ((CalculateSet m config a b).1 = false →
      ∃ i1 i2 : Int,
        goMod (toInt (Floor (CalculateSet m config a b).2.2) + 1) P.length = some i1 ∧
        goMod (toInt (Floor (CalculateSet m config a b).2.2)) P.length = some i2 ∧
        0 ≤ i1 ∧ i1 < P.length ∧ 0 ≤ i2 ∧ i2 < P.length) ∧
    ((CalculateSet.final config a b).1 < config.MaxIteration →
      1 < (CalculateSet.final config a b).2.1 * (CalculateSet.final config a b).2.1
          + (CalculateSet.final config a b).2.2 * (CalculateSet.final config a b).2.2 ∧
      ((∀ x, 1 < x → 0 < m.Log x) →
        0 < m.Log ((CalculateSet.final config a b).2.1 * (CalculateSet.final config a b).2.1
          + (CalculateSet.final config a b).2.2 * (CalculateSet.final config a b).2.2)
            / 2 / m.Log 2)) := by
  have hv : 0 ≤ (CalculateSet m config a b).2.2 := CalculateSet.color_nonneg m config _ _ _
  have hfl : 0 ≤ ⌊(CalculateSet m config a b).2.2⌋ := Int.floor_nonneg.mpr hv
  have hi : toInt (Floor (CalculateSet m config a b).2.2)
      = ((⌊(CalculateSet m config a b).2.2⌋.toNat : Nat) : Int) := by
    rw [toInt_Floor, Int.toNat_of_nonneg hfl]
  have hn : P.length ≠ 0 := fun h => hP (List.length_eq_zero.mp h)
  have hpos : 0 < P.length := Nat.pos_of_ne_zero hn
  refine ⟨hv, ?_, ?_, ?_⟩
  · cases hin : (CalculateSet m config a b).1 with
    | true => exact ⟨_, smoothColor_true P _ _⟩
    | false =>
      obtain ⟨c1, c2, _, _, h3⟩ :=
        smoothColor_of_nonneg P (CalculateSet m config a b).2.1 _ _ hi hP
      exact ⟨_, h3⟩
  · intro _
    have hi1 : toInt (Floor (CalculateSet m config a b).2.2) + 1
        = (((⌊(CalculateSet m config a b).2.2⌋.toNat + 1 : Nat)) : Int) := by
      rw [hi]; push_cast; rfl
    refine ⟨(((⌊(CalculateSet m config a b).2.2⌋.toNat + 1) % P.length : Nat) : Int),
      ((⌊(CalculateSet m config a b).2.2⌋.toNat % P.length : Nat) : Int),
      ?_, ?_, ?_, ?_, ?_, ?_⟩
    · rw [hi1]; exact goMod_natCast _ _ hn
    · rw [hi]; exact goMod_natCast _ _ hn
    · exact Int.natCast_nonneg _
    · exact_mod_cast Nat.mod_lt _ hpos
    · exact Int.natCast_nonneg _
    · exact_mod_cast Nat.mod_lt _ hpos
  · intro hlt
    have hM : 0 ≤ config.MaxIteration := by
      by_contra hneg
      rw [CalculateSet.final_neg config a b (lt_of_not_le hneg)] at hlt
      exact hneg (le_of_lt hlt)
    obtain ⟨k, hk1, hk2, hk3⟩ := CalculateSet.final_orbit config a b hM
    have hgt : 1 < (CalculateSet.final config a b).2.1 * (CalculateSet.final config a b).2.1
        + (CalculateSet.final config a b).2.2 * (CalculateSet.final config a b).2.2 := by
      rcases hk3 with ⟨_, hesc, hz⟩ | ⟨heq, _⟩
      · rw [hz]; exact normSq_succ_first_escape a b k hesc hk2
      · rw [hk1, heq] at hlt; exact absurd hlt (lt_irrefl _)
    refine ⟨hgt, ?_⟩
    intro hlog
    exact div_pos (div_pos (hlog _ hgt) (by norm_num)) (hlog 2 (by norm_num))

/-- The same over `ℚ`, at the point `(1, 0)` with the default budget and the
palette `(10,20,30), (250,250,250)`. -/
theorem render_no_error_witness :
    ([⟨10, 20, 30⟩, ⟨250, 250, 250⟩] : List Color) ≠ [] ∧
    0 ≤ (CalculateSet ratFns defaultConfig (1 : ℚ) 0).2.2 ∧
    ∃ c, smoothColor [⟨10, 20, 30⟩, ⟨250, 250, 250⟩]
        (CalculateSet ratFns defaultConfig (1 : ℚ) 0).1
        (CalculateSet ratFns defaultConfig (1 : ℚ) 0).2.1
        (CalculateSet ratFns defaultConfig (1 : ℚ) 0).2.2 = some c :=
  have h := render_no_error ratFns defaultConfig (1 : ℚ) 0
    [⟨10, 20, 30⟩, ⟨250, 250, 250⟩] (by simp)
  ⟨by simp, h.1, h.2.1⟩

end Render

/-! ## The orbit value used by the smoothing formula -/

section Smoothing

variable {α : Type} [LinearOrderedField α]

/-- C10, as the code has it. For a budget `MaxIteration ≥ 0`, when a point is
reported as escaping (`inSet = false`) at count `k`, then `z_k` is the first
orbit value with squared magnitude above 64, the update has been applied before
the loop was left, so the loop variables `(aCurrent, bCurrent)` hold the next
orbit value `z_(k+1) = z_k^2 + c`, and
`smoothValue = max 0 (k + 1 - Log (Log |z_(k+1)|^2 / 2 / Log 2) / Log 2)`. -/
theorem CalculateSet_smooth_next (m : MathFns α) (config : Config α) (a b : α)
    (hM : 0 ≤ config.MaxIteration) (hin : (CalculateSet m config a b).1 = false) :
    ∃ k : Nat,
      (CalculateSet m config a b).2.1 = (k : Int) ∧
      escaped a b k ∧ (∀ j, j < k → ¬ escaped a b j) ∧
      (CalculateSet.final config a b).2 = orbit a b (k + 1) ∧
      (CalculateSet m config a b).2.2 =
        max 0 ((k : α) + 1
          - m.Log (m.Log (normSq a b (k + 1)) / 2 / m.Log 2) / m.Log 2) := by
  rw [CalculateSet.inSet_eq, decide_eq_false_iff_not] at hin
  obtain ⟨k, hk1, hk2, hk3⟩ := CalculateSet.final_orbit config a b hM
  rcases hk3 with ⟨hlt, hesc, hz⟩ | ⟨heq, _⟩
  · refine ⟨k, hk1, hesc, hk2, hz, ?_⟩
    have hlt' : (CalculateSet.final config a b).1 < config.MaxIteration := by
      rw [hk1]; exact hlt
    have hz1 : (CalculateSet.final config a b).2.1 = (orbit a b (k + 1)).1 := by rw [hz]
    have hz2 : (CalculateSet.final config a b).2.2 = (orbit a b (k + 1)).2 := by rw [hz]
    show CalculateSet.color m config (CalculateSet.final config a b).1
      (CalculateSet.final config a b).2.1 (CalculateSet.final config a b).2.2 = _
    unfold CalculateSet.color
    rw [if_pos hlt', hz1, hz2, hk1]
    simp only [normSq, Int.cast_natCast]
    split_ifs with hneg
    · exact (max_eq_left (le_of_lt hneg)).symm
    · exact (max_eq_right (not_lt.mp hneg)).symm
  · exact absurd (hk1.trans heq) hin

/-- C10 as the code has it, at the point `(1, 0)` with the default budget
over `ℚ`. -/
theorem CalculateSet_smooth_next_witness :
    (0 : Int) ≤ (defaultConfig : Config ℚ).MaxIteration ∧
    (CalculateSet ratFns defaultConfig (1 : ℚ) 0).1 = false ∧
    ∃ k : Nat,
      (CalculateSet ratFns defaultConfig (1 : ℚ) 0).2.1 = (k : Int) ∧
      escaped (1 : ℚ) 0 k ∧ (∀ j, j < k → ¬ escaped (1 : ℚ) 0 j) ∧
      (CalculateSet.final defaultConfig (1 : ℚ) 0).2 = orbit (1 : ℚ) 0 (k + 1) ∧
      (CalculateSet ratFns defaultConfig (1 : ℚ) 0).2.2 =
        max 0 ((k : ℚ) + 1
          - ratFns.Log (ratFns.Log (normSq (1 : ℚ) 0 (k + 1)) / 2 / ratFns.Log 2)
            / ratFns.Log 2) :=
  have hM : (defaultConfig : Config ℚ).MaxIteration = 1000 := rfl
  have e := CalculateSet.final_one_zero (defaultConfig : Config ℚ) (by decide)
  have hin : (CalculateSet ratFns defaultConfig (1 : ℚ) 0).1 = false := by
    rw [CalculateSet.inSet_eq]; simp only [CalculateSet, e, hM]; decide
  ⟨by decide, hin, CalculateSet_smooth_next ratFns defaultConfig 1 0 (by decide) hin⟩

/-- C10 as stated fails on the point `(1, 0)` with budget 1000 over the reals
with the natural logarithm: the point is reported as escaping at count 4, the
first orbit value above the radius is `z_4 = 26`, but the loop variables hold
`z_5 = 677 ≠ z_4`, and the smooth value is not
`max 0 (4 + 1 - ln (ln |z_4|^2 / 2 / ln 2) / ln 2)`. -/
theorem CalculateSet_smooth_not_at_escape :
    (CalculateSet (⟨Real.log, Real.cos, Real.sin⟩ : MathFns ℝ) defaultConfig 1 0).1 = false ∧
    (CalculateSet (⟨Real.log, Real.cos, Real.sin⟩ : MathFns ℝ) defaultConfig 1 0).2.1 = 4 ∧
    escaped (1 : ℝ) 0 4 ∧ (∀ j, j < 4 → ¬ escaped (1 : ℝ) 0 j) ∧
    (CalculateSet.final (defaultConfig : Config ℝ) 1 0).2 ≠ orbit (1 : ℝ) 0 4 ∧
    (CalculateSet (⟨Real.log, Real.cos, Real.sin⟩ : MathFns ℝ) defaultConfig 1 0).2.2 ≠
      max 0 ((4 : ℝ) + 1
        - Real.log (Real.log (normSq (1 : ℝ) 0 4) / 2 / Real.log 2) / Real.log 2) := by
  have hM : (defaultConfig : Config ℝ).MaxIteration = 1000 := rfl
  have e := CalculateSet.final_one_zero (defaultConfig : Config ℝ) (by rw [hM]; decide)
  have hn4 : normSq (1 : ℝ) 0 4 = 676 := by simp [normSq, orbit]; norm_num
  have hL2 : 0 < Real.log 2 := Real.log_pos (by norm_num)
  have hL26 : 0 < Real.log 676 / 2 / Real.log 2 :=
    div_pos (div_pos (Real.log_pos (by norm_num)) (by norm_num)) hL2
  have hlt : Real.log 676 / 2 / Real.log 2 < Real.log (677 * 677 + 0 * 0) / 2 / Real.log 2 := by
    apply div_lt_div_of_pos_right _ hL2
    apply div_lt_div_of_pos_right _ (by norm_num)
    exact Real.log_lt_log (by norm_num) (by norm_num)
  have hAB : Real.log (Real.log 676 / 2 / Real.log 2) / Real.log 2
      < Real.log (Real.log (677 * 677 + 0 * 0) / 2 / Real.log 2) / Real.log 2 :=
    div_lt_div_of_pos_right (Real.log_lt_log hL26 hlt) hL2
  have hB : Real.log (Real.log 676 / 2 / Real.log 2) / Real.log 2 < 5 := by
    rw [div_lt_iff₀ hL2]
    have h32 : (5 : ℝ) * Real.log 2 = Real.log 32 := by
      have : (32 : ℝ) = 2 ^ (5 : ℕ) := by norm_num
      rw [this, Real.log_pow]; norm_num
    rw [h32]
    apply Real.log_lt_log hL26
    rw [div_lt_iff₀ hL2, div_lt_iff₀ (by norm_num : (0 : ℝ) < 2)]
    have h64 : (32 : ℝ) * Real.log 2 * 2 = Real.log (2 ^ (64 : ℕ)) := by
      rw [Real.log_pow]; push_cast; ring
    rw [h64]
    exact Real.log_lt_log (by norm_num) (by norm_num)
  refine ⟨?_, ?_, ?_, ?_, ?_, ?_⟩
  · rw [CalculateSet.inSet_eq]; simp only [CalculateSet, e, hM]; decide
  · simp only [CalculateSet, e]
  · unfold escaped; rw [hn4]; norm_num
  · intro j hj
    unfold escaped
    interval_cases j <;> simp [normSq, orbit] <;> norm_num
  · rw [e]; simp [orbit]; norm_num
  · rw [hn4]
    show CalculateSet.color _ _ (CalculateSet.final (defaultConfig : Config ℝ) 1 0).1
      (CalculateSet.final (defaultConfig : Config ℝ) 1 0).2.1
      (CalculateSet.final (defaultConfig : Config ℝ) 1 0).2.2 ≠ _
    rw [e]
    unfold CalculateSet.color
    simp only [hM]
    rw [if_pos (by decide)]
    have hr : max (0 : ℝ) (4 + 1 - Real.log (Real.log 676 / 2 / Real.log 2) / Real.log 2)
        = 4 + 1 - Real.log (Real.log 676 / 2 / Real.log 2) / Real.log 2 :=
      max_eq_right (by linarith)
    rw [hr]
    apply ne_of_lt
    split_ifs with hneg
    · linarith
    · push_cast; linarith

end Smoothing


/-! ## Palette loader: lemmas -/

section PaletteLemmas

theorem isSpace_of_isBlank {c : Char} (h : isBlank c = true) : isSpace c = true := by
  unfold isBlank at h
  unfold isSpace
  simp only [Bool.or_eq_true, decide_eq_true_eq] at h ⊢
  omega

theorem not_newline_of_isBlank {c : Char} (h : isBlank c = true) : ¬ c.toNat = 10 := by
  unfold isBlank at h
  simp only [Bool.or_eq_true, decide_eq_true_eq] at h
  omega

theorem not_acceptsDigit_of_isBlank {c : Char} (h : isBlank c = true) :
    acceptsDigit c = false := by
  unfold isBlank at h
  unfold acceptsDigit isDecimal
  simp only [Bool.or_eq_true, decide_eq_true_eq] at h
  simp only [decide_eq_false_iff_not]
  omega

theorem not_isSpace_of_isDecimal {c : Char} (h : isDecimal c = true) : isSpace c = false := by
  unfold isDecimal at h
  unfold isSpace
  simp only [decide_eq_true_eq] at h
  simp only [decide_eq_false_iff_not]
  omega

theorem not_newline_of_isDecimal {c : Char} (h : isDecimal c = true) : ¬ c.toNat = 10 := by
  unfold isDecimal at h
  simp only [decide_eq_true_eq] at h
  omega

theorem acceptsDigit_of_isDecimal {c : Char} (h : isDecimal c = true) :
    acceptsDigit c = true := by
  unfold acceptsDigit
  exact h

theorem not_sign_of_isDecimal {c : Char} (h : isDecimal c = true) :
    ¬ (c = '+' ∨ c = '-') := by
  rintro (h1 | h1) <;> · rw [h1] at h; exact absurd h (by decide)

/-- White space before a digit, or before the end, is skipped entirely. -/
theorem skipSpace_blanks (s r : List Char) (hs : s.all isBlank = true)
    (hr : skipSpace r = .ok r) : skipSpace (s ++ r) = .ok r := by
  induction s with
  | nil => simpa using hr
  | cons c s ih =>
    rw [List.all_cons, Bool.and_eq_true] at hs
    rw [List.cons_append, skipSpace, if_neg (not_newline_of_isBlank hs.1),
      if_pos (isSpace_of_isBlank hs.1)]
    exact ih hs.2

theorem skipSpace_digit (d : Char) (t : List Char) (hd : isDecimal d = true) :
    skipSpace (d :: t) = .ok (d :: t) := by
  rw [skipSpace, if_neg (not_newline_of_isDecimal hd)]
  simp [not_isSpace_of_isDecimal hd]

/-- A non-empty run of blanks before a digit, or before the end, matches the
space of the format, and is consumed entirely. -/
theorem matchSpace_blanks (s r : List Char) (hs : s.all isBlank = true) (hne : s ≠ [])
    (hr : ∀ c t, r = c :: t → isSpace c = false) : matchSpace (s ++ r) = .ok r := by
  cases s with
  | nil => exact absurd rfl hne
  | cons c s =>
    rw [List.all_cons, Bool.and_eq_true] at hs
    rw [List.cons_append, matchSpace]
    simp only [isSpace_of_isBlank hs.1, Bool.not_true, Bool.false_eq_true, if_false,
      if_neg (not_newline_of_isBlank hs.1)]
    congr 1
    have : ∀ (u : List Char), u.all isBlank = true →
        (u ++ r).dropWhile (fun d => isSpace d && decide (d.toNat ≠ 10)) = r := by
      intro u
      induction u with
      | nil =>
        intro _
        cases r with
        | nil => rfl
        | cons c t =>
          rw [List.nil_append, List.dropWhile_cons]
          simp [hr c t rfl]
      | cons e u ih =>
        intro hu
        rw [List.all_cons, Bool.and_eq_true] at hu
        rw [List.cons_append, List.dropWhile_cons]
        simp only [isSpace_of_isBlank hu.1, not_newline_of_isBlank hu.1, ne_eq,
          not_false_eq_true, decide_True, Bool.and_self, if_true]
        exact ih hu.2
    exact this s hs.2

/-- A run of accepted characters followed by a character that is not accepted,
or by the end, is the token taken. -/
theorem takeWhile_digits (d r : List Char) (hd : d.all isDecimal = true)
    (hr : ∀ c t, r = c :: t → acceptsDigit c = false) :
    (d ++ r).takeWhile acceptsDigit = d ∧ (d ++ r).dropWhile acceptsDigit = r := by
  induction d with
  | nil =>
    cases r with
    | nil => exact ⟨rfl, rfl⟩
    | cons c t =>
      rw [List.nil_append, List.takeWhile_cons, List.dropWhile_cons]
      simp [hr c t rfl]
  | cons e d ih =>
    rw [List.all_cons, Bool.and_eq_true] at hd
    rw [List.cons_append, List.takeWhile_cons, List.dropWhile_cons]
    simp only [acceptsDigit_of_isDecimal hd.1, if_true]
    exact ⟨by rw [(ih hd.2).1], (ih hd.2).2⟩

/-- Scanning an integer from blanks, a run of digits of value at most 255, and
a rest that does not continue the number. -/
theorem scanInt_digits (s d r : List Char) (hs : s.all isBlank = true)
    (hd : d.all isDecimal = true) (hne : d ≠ []) (hv : decimalValue d ≤ 255)
    (hr : ∀ c t, r = c :: t → acceptsDigit c = false) :
    scanInt (s ++ (d ++ r)) = .ok ((decimalValue d : Int), r) := by
  cases d with
  | nil => exact absurd rfl hne
  | cons e d =>
    have hd' := hd
    rw [List.all_cons, Bool.and_eq_true] at hd'
    have hskip : skipSpace (s ++ (e :: d ++ r)) = .ok (e :: (d ++ r)) :=
      skipSpace_blanks s _ hs (skipSpace_digit e _ hd'.1)
    have htw := takeWhile_digits (e :: d) r hd hr
    rw [List.cons_append] at htw
    unfold scanInt
    rw [hskip]
    simp only [if_neg (not_sign_of_isDecimal hd'.1), acceptsDigit_of_isDecimal hd'.1,
      Bool.not_true, Bool.false_eq_true, if_false, htw.1, htw.2]
    unfold ParseInt
    have h1 : ¬ ((e :: d) = [] ∨ ¬ (e :: d).all isDecimal = true) := by
      rintro (h | h)
      · exact absurd h (List.cons_ne_nil _ _)
      · exact h hd
    rw [if_neg h1, if_neg (by simp), if_neg (by omega)]

/-- On a valid `R G B` line `Sscanf` scans the three values without error. -/
theorem Sscanf_validLine (line : List Char) (c : Color) (h : validLine line c)
    (c0 : Color) : Sscanf line c0 = (c, 3, none) := by
  obtain ⟨s0, d1, s1, d2, s2, d3, s3, hl, hs0, hs1, hs2, hs3, n1, n2, hd1, hd2, hd3,
    m1, m2, m3, v1, v2, v3, hc⟩ := h
  have blankHead : ∀ (s t : List Char), s.all isBlank = true → s ≠ [] →
      ∀ c u, s ++ t = c :: u → acceptsDigit c = false := by
    intro s t hs hne c u hcu
    cases s with
    | nil => exact absurd rfl hne
    | cons e s =>
      rw [List.all_cons, Bool.and_eq_true] at hs
      rw [List.cons_append] at hcu
      injection hcu with h1 _
      rw [← h1]; exact not_acceptsDigit_of_isBlank hs.1
  have digitHead : ∀ (d t : List Char), d.all isDecimal = true → d ≠ [] →
      ∀ c u, d ++ t = c :: u → isSpace c = false := by
    intro d t hd hne c u hcu
    cases d with
    | nil => exact absurd rfl hne
    | cons e d =>
      rw [List.all_cons, Bool.and_eq_true] at hd
      rw [List.cons_append] at hcu
      injection hcu with h1 _
      rw [← h1]; exact not_isSpace_of_isDecimal hd.1
  have e1 := scanInt_digits s0 d1 (s1 ++ (d2 ++ (s2 ++ (d3 ++ s3)))) hs0 hd1 m1 v1
    (blankHead s1 _ hs1 n1)
  have e2 := matchSpace_blanks s1 (d2 ++ (s2 ++ (d3 ++ s3))) hs1 n1 (digitHead d2 _ hd2 m2)
  have e3 := scanInt_digits [] d2 (s2 ++ (d3 ++ s3)) rfl hd2 m2 v2 (blankHead s2 _ hs2 n2)
  have e4 := matchSpace_blanks s2 (d3 ++ s3) hs2 n2 (digitHead d3 _ hd3 m3)
  have hs3' : ∀ c t, s3 = c :: t → acceptsDigit c = false := by
    intro c t hct
    rw [hct, List.all_cons, Bool.and_eq_true] at hs3
    exact not_acceptsDigit_of_isBlank hs3.1
  have e5 := scanInt_digits [] d3 s3 rfl hd3 m3 v3 hs3'
  rw [List.nil_append] at e3 e5
  unfold Sscanf
  rw [hl, e1]
  simp only [e2, e3, e4, e5, hc]

/-- The bounds `valid` tests. -/
theorem Color.valid_iff (c : Color) :
    c.valid = true ↔
      0 ≤ c.R ∧ c.R ≤ 255 ∧ 0 ≤ c.G ∧ c.G ≤ 255 ∧ 0 ≤ c.B ∧ c.B ≤ 255 := by
  unfold Color.valid
  constructor
  · intro h
    split_ifs at h with h1 h2 h3
    omega
  · intro h
    rw [if_neg (by omega), if_neg (by omega), if_neg (by omega)]

/-- The loop of `LoadColors` on lines that are comments or valid `R G B`
lines: the colours read so far, followed by those the lines denote. -/
theorem LoadColors.loop_denotes (errText : ScanError → String) (lines : List (List Char))
    (cs : List Color) (h : Denotes lines cs) :
    ∀ (lineNumber : Int) (colors : List Color),
      LoadColors.loop errText lineNumber colors lines = .ok (colors ++ cs) := by
  induction h with
  | nil => intro k colors; simp [LoadColors.loop]
  | comment line rest cs hc _ ih =>
    intro k colors
    rw [LoadColors.loop, if_pos hc]
    exact ih _ _
  | entry line c rest cs hv _ ih =>
    intro k colors
    have hnc : ¬ hasPrefixHash line = true := by
      obtain ⟨s0, d1, s1, d2, s2, d3, s3, hl, hs0, _, _, _, _, _, hd1, _, _, m1, _⟩ := hv
      rw [hl]
      cases s0 with
      | nil =>
        cases d1 with
        | nil => exact absurd rfl m1
        | cons e d =>
          rw [List.all_cons, Bool.and_eq_true] at hd1
          simp only [List.nil_append, List.cons_append, hasPrefixHash, decide_eq_true_eq]
          intro he; rw [he] at hd1; exact absurd hd1.1 (by decide)
      | cons e s =>
        rw [List.all_cons, Bool.and_eq_true] at hs0
        simp only [List.cons_append, hasPrefixHash, decide_eq_true_eq]
        intro he; rw [he] at hs0; exact absurd hs0.1 (by decide)
    have hvalid : c.valid = true := by
      obtain ⟨_, d1, _, d2, _, d3, _, _, _, _, _, _, _, _, _, _, _, _, _, _, v1, v2, v3, hc⟩ := hv
      rw [Color.valid_iff, hc]
      simp only
      omega
    rw [LoadColors.loop, if_neg hnc, Sscanf_validLine line c hv]
    simp only [ne_eq, not_true_eq_false, if_false, hvalid, Bool.not_true, Bool.false_eq_true]
    rw [ih, List.append_assoc]
    rfl

/-- Every colour of a palette the loop of `LoadColors` returns passes `valid`,
when those read before do. -/
theorem LoadColors.loop_valid (errText : ScanError → String) (lines : List (List Char)) :
    ∀ (lineNumber : Int) (colors out : List Color),
      (∀ c ∈ colors, c.valid = true) →
      LoadColors.loop errText lineNumber colors lines = .ok out →
      ∀ c ∈ out, c.valid = true := by
  induction lines with
  | nil =>
    intro k colors out hcs h
    simp only [LoadColors.loop, Except.ok.injEq] at h
    rw [← h]; exact hcs
  | cons line rest ih =>
    intro k colors out hcs h
    rw [LoadColors.loop] at h
    split_ifs at h with hc
    · exact ih _ _ _ hcs h
    · split at h
      · exact absurd h (by simp)
      · split_ifs at h with hn hv
        · exact ih _ _ _ (by
            intro c hcmem
            rcases List.mem_append.mp hcmem with h1 | h1
            · exact hcs c h1
            · rw [List.mem_singleton] at h1
              rw [h1]; simpa using hv) h

/-- The loop of `LoadColors` on comment lines only: the colours read so far. -/
theorem LoadColors.loop_comments (errText : ScanError → String) (lines : List (List Char))
    (h : ∀ l ∈ lines, hasPrefixHash l = true) :
    ∀ (lineNumber : Int) (colors : List Color),
      LoadColors.loop errText lineNumber colors lines = .ok colors := by
  induction lines with
  | nil => intro k colors; rfl
  | cons line rest ih =>
    intro k colors
    rw [LoadColors.loop, if_pos (h line (List.mem_cons_self _ _))]
    exact ih (fun l hl => h l (List.mem_cons_of_mem _ hl)) _ _

/-- On a text all of whose lines fit the scanner's buffer, the scanner yields
the lines of the text. -/
theorem scanLines_eq_textLines (text : List Char)
    (hfit : ∀ l ∈ rawLines text, byteLength l < MaxScanTokenSize) :
    scanLines text = textLines text := by
  unfold scanLines textLines
  congr 1
  rw [List.takeWhile_eq_self_iff]
  intro l hl
  exact decide_eq_true (hfit l hl)

/-- Cutting a text whose current line goes on with `l`, free of newlines, up to
a newline. -/
theorem rawLines.go_append (l rest : List Char) (hl : ∀ c ∈ l, c ≠ '\n') :
    ∀ acc : List Char,
      rawLines.go acc (l ++ '\n' :: rest) = (acc.reverse ++ l) :: rawLines.go [] rest := by
  induction l with
  | nil =>
    intro acc
    rw [List.nil_append, rawLines.go, if_pos rfl, List.append_nil]
  | cons c l ih =>
    intro acc
    have hc : c ≠ '\n' := hl c (List.mem_cons_self _ _)
    rw [List.cons_append, rawLines.go, if_neg hc,
      ih (fun d hd => hl d (List.mem_cons_of_mem _ hd)) (c :: acc)]
    simp

/-- A run of `n` letters `x` is `n` bytes long. -/
theorem byteLength_replicate_x (n : Nat) : byteLength (List.replicate n 'x') = n := by
  unfold byteLength
  induction n with
  | zero => rfl
  | succ n ih =>
    rw [List.replicate_succ, List.map_cons, List.sum_cons, ih]
    have : Char.utf8Size 'x' = 1 := by decide
    rw [this]; omega

/-- A line that ends in a letter `x` has no carriage return to drop. -/
theorem dropCR_concat_x (l : List Char) : dropCR (l ++ ['x']) = l ++ ['x'] := by
  unfold dropCR
  rw [List.getLast?_concat, if_neg (by decide)]

end PaletteLemmas

/-! ## Palette loader: the claims -/

section Palette

/-- C11. On a palette text with no usable entry the code returns the empty
palette and no error: on the empty text, on a text of comment lines only, and
on every sequence of comment lines.  The colour function built on the empty
palette then panics (integer division by zero) on every point outside the
set. -/
theorem LoadColors_no_entries (errText : ScanError → String) :
    LoadColors errText (.ok []) = .ok [] ∧
    LoadColors errText (.ok "# only\n# comments\n".toList) = .ok [] ∧
    (∀ lines : List (List Char), (∀ l ∈ lines, hasPrefixHash l = true) →
      LoadColors.loop errText 0 [] lines = .ok []) ∧
    (∀ (k : Int) (v : ℚ), smoothColor ([] : List Color) false k v = none) := by
  refine ⟨rfl, rfl, ?_, ?_⟩
  · intro lines h
    exact LoadColors.loop_comments errText lines h 0 []
  · intro k v
    simp [smoothColor, goMod]

/-- C12. On the one-line text `1 2 3 4`, a line of four integers, the code
returns the palette `(1, 2, 3)` and no error; likewise on a line of three
integers followed by other text. -/
theorem LoadColors_four_integers (errText : ScanError → String) :
    LoadColors errText (.ok "1 2 3 4".toList) = .ok [⟨1, 2, 3⟩] ∧
    LoadColors errText (.ok "10 20 30\n1 2 3 rest of the line\n".toList)
      = .ok [⟨10, 20, 30⟩, ⟨1, 2, 3⟩] :=
  ⟨rfl, rfl⟩

/-- C13. Every component `R`, `G`, `B` of every entry of a palette that
`LoadColors` returns without error lies in `[0, 255]`. -/
theorem LoadColors_components (errText : ScanError → String)
    (opened : Except String (List Char)) (colors : List Color)
    (h : LoadColors errText opened = .ok colors) :
    ∀ c ∈ colors, 0 ≤ c.R ∧ c.R ≤ 255 ∧ 0 ≤ c.G ∧ c.G ≤ 255 ∧ 0 ≤ c.B ∧ c.B ≤ 255 := by
  intro c hc
  rw [← Color.valid_iff]
  cases opened with
  | error e => exact absurd h (by simp [LoadColors])
  | ok text =>
    exact LoadColors.loop_valid errText (scanLines text) 0 [] colors
      (by intro c hc; exact absurd hc (List.not_mem_nil c)) h c hc

/-- C13, on the text `10 20 30`, `# comment`, `250 250 250`. -/
theorem LoadColors_components_witness :
    LoadColors ScanError.text (.ok "10 20 30\n# comment\n250 250 250".toList)
      = .ok [⟨10, 20, 30⟩, ⟨250, 250, 250⟩] ∧
    ∀ c ∈ ([⟨10, 20, 30⟩, ⟨250, 250, 250⟩] : List Color),
      0 ≤ c.R ∧ c.R ≤ 255 ∧ 0 ≤ c.G ∧ c.G ≤ 255 ∧ 0 ≤ c.B ∧ c.B ≤ 255 :=
  ⟨rfl, LoadColors_components ScanError.text
    (.ok "10 20 30\n# comment\n250 250 250".toList) _ rfl⟩

/-- C14, as the code has it. On a palette text each line of which is a
comment line (beginning with `#`) or a valid `R G B` line, and each line of
which is shorter than the scanner's buffer of `MaxScanTokenSize` bytes,
`LoadColors` returns without error exactly the colours of the valid lines, in
their order; and the three-line text `10 20 30`, `# comment`, `250 250 250`
loads to the two entries `(10,20,30)` and `(250,250,250)`. -/
theorem LoadColors_denotes (errText : ScanError → String) (text : List Char)
    (cs : List Color)
    (hfit : ∀ l ∈ rawLines text, byteLength l < MaxScanTokenSize)
    (h : Denotes (textLines text) cs) :
    LoadColors errText (.ok text) = .ok cs ∧
    LoadColors errText (.ok "10 20 30\n# comment\n250 250 250".toList)
      = .ok [⟨10, 20, 30⟩, ⟨250, 250, 250⟩] := by
  refine ⟨?_, rfl⟩
  rw [← scanLines_eq_textLines text hfit] at h
  have := LoadColors.loop_denotes errText (scanLines text) cs h 0 []
  simpa [LoadColors] using this

/-- C14 as the code has it, on the text `10 20 30`, `# comment`,
`250 250 250`, whose lines are 8, 9 and 11 bytes long, the first and the third
valid `R G B` lines and the second a comment. -/
theorem LoadColors_denotes_witness :
    (∀ l ∈ rawLines "10 20 30\n# comment\n250 250 250".toList,
      byteLength l < MaxScanTokenSize) ∧
    Denotes (textLines "10 20 30\n# comment\n250 250 250".toList)
      [⟨10, 20, 30⟩, ⟨250, 250, 250⟩] ∧
    LoadColors ScanError.text (.ok "10 20 30\n# comment\n250 250 250".toList)
      = .ok [⟨10, 20, 30⟩, ⟨250, 250, 250⟩] :=
  have hfit : ∀ l ∈ rawLines "10 20 30\n# comment\n250 250 250".toList,
      byteLength l < MaxScanTokenSize := by
    intro l hl
    have hr : rawLines "10 20 30\n# comment\n250 250 250".toList
        = ["10 20 30".toList, "# comment".toList, "250 250 250".toList] := rfl
    rw [hr] at hl
    simp only [List.mem_cons, List.mem_singleton, List.not_mem_nil, or_false] at hl
    rcases hl with h | h | h <;> rw [h] <;> decide
  have h : Denotes (textLines "10 20 30\n# comment\n250 250 250".toList)
      [⟨10, 20, 30⟩, ⟨250, 250, 250⟩] :=
    Denotes.entry "10 20 30".toList ⟨10, 20, 30⟩ _ _
      ⟨[], "10".toList, " ".toList, "20".toList, " ".toList, "30".toList, [],
        rfl, rfl, rfl, rfl, rfl, by decide, by decide, rfl, rfl, rfl,
        by decide, by decide, by decide, by decide, by decide, by decide, rfl⟩
      (Denotes.comment "# comment".toList _ _ rfl
        (Denotes.entry "250 250 250".toList ⟨250, 250, 250⟩ _ _
          ⟨[], "250".toList, " ".toList, "250".toList, " ".toList, "250".toList, [],
            rfl, rfl, rfl, rfl, rfl, by decide, by decide, rfl, rfl, rfl,
            by decide, by decide, by decide, by decide, by decide, by decide, rfl⟩
          Denotes.nil))
  ⟨hfit, h, (LoadColors_denotes ScanError.text _ _ hfit h).1⟩

/-- C14 as stated fails on the text of the three lines `1 2 3`, a comment line
of `#` followed by 65536 letters `x`, and `4 5 6`: every line is a comment
line or a valid `R G B` line and the valid lines denote `(1,2,3)` and
`(4,5,6)`, but the scanner stops at the comment line, which does not fit its
buffer, and `LoadColors` returns without error the one colour `(1,2,3)`. -/
theorem LoadColors_long_line :
    Denotes
      (textLines ("1 2 3".toList ++ '\n' :: (('#' :: List.replicate 65536 'x')
        ++ '\n' :: ("4 5 6".toList ++ '\n' :: []))))
      [⟨1, 2, 3⟩, ⟨4, 5, 6⟩] ∧
    LoadColors ScanError.text
      (.ok ("1 2 3".toList ++ '\n' :: (('#' :: List.replicate 65536 'x')
        ++ '\n' :: ("4 5 6".toList ++ '\n' :: []))))
      = .ok [⟨1, 2, 3⟩] := by
  have hx : ∀ c ∈ ('#' :: List.replicate 65536 'x'), c ≠ '\n' := by
    intro c hc
    rcases List.mem_cons.mp hc with h | h
    · rw [h]; decide
    · rw [List.eq_of_mem_replicate h]; decide
  have hraw : rawLines ("1 2 3".toList ++ '\n' :: (('#' :: List.replicate 65536 'x')
      ++ '\n' :: ("4 5 6".toList ++ '\n' :: [])))
      = ["1 2 3".toList, '#' :: List.replicate 65536 'x', "4 5 6".toList] := by
    unfold rawLines
    rw [rawLines.go_append _ _ (by decide), rawLines.go_append _ _ hx,
      rawLines.go_append _ _ (by decide)]
    rfl
  have hlong : byteLength ('#' :: List.replicate 65536 'x') = 65537 := by
    have h := byteLength_replicate_x 65536
    unfold byteLength at h ⊢
    rw [List.map_cons, List.sum_cons, h]
    rfl
  have hdrop : dropCR ('#' :: List.replicate 65536 'x') = '#' :: List.replicate 65536 'x' := by
    have e : '#' :: List.replicate 65536 'x' = ('#' :: List.replicate 65535 'x') ++ ['x'] := by
      rw [List.cons_append, ← List.replicate_succ']
    rw [e]; exact dropCR_concat_x _
  constructor
  · unfold textLines
    rw [hraw]
    simp only [List.map_cons, List.map_nil, hdrop]
    exact Denotes.entry "1 2 3".toList ⟨1, 2, 3⟩ _ _
      ⟨[], "1".toList, " ".toList, "2".toList, " ".toList, "3".toList, [],
        rfl, rfl, rfl, rfl, rfl, by decide, by decide, rfl, rfl, rfl,
        by decide, by decide, by decide, by decide, by decide, by decide, rfl⟩
      (Denotes.comment ('#' :: List.replicate 65536 'x') _ _ rfl
        (Denotes.entry "4 5 6".toList ⟨4, 5, 6⟩ _ _
          ⟨[], "4".toList, " ".toList, "5".toList, " ".toList, "6".toList, [],
            rfl, rfl, rfl, rfl, rfl, by decide, by decide, rfl, rfl, rfl,
            by decide, by decide, by decide, by decide, by decide, by decide, rfl⟩
          Denotes.nil))
  · have hscan : scanLines ("1 2 3".toList ++ '\n' :: (('#' :: List.replicate 65536 'x')
        ++ '\n' :: ("4 5 6".toList ++ '\n' :: []))) = ["1 2 3".toList] := by
      unfold scanLines
      rw [hraw, List.takeWhile_cons, if_pos (by decide), List.takeWhile_cons,
        if_neg (by rw [hlong]; decide)]
      rfl
    unfold LoadColors
    simp only [hscan]
    rfl

end Palette

/-! ## Animation sequencer: lemmas -/

section VideoLemmas

variable {α : Type} [LinearOrderedField α]

theorem mainVideo.zoom_zero (c : Config α) (n : Int) (zr sp : α) (i : Int) (scale : α) :
    mainVideo.zoom c n zr sp 0 i scale = [] := rfl

theorem mainVideo.zoom_succ (c : Config α) (n : Int) (zr sp : α) (fuel : Nat) (i : Int)
    (scale : α) :
    mainVideo.zoom c n zr sp (fuel + 1) i scale =
      if i < n then
        ⟨c.CenterX, c.CenterY, scale * sp,
            c.InitialRotation + ((i : Int) : α) / ((n : Int) : α) * zr⟩ ::
          mainVideo.zoom c n zr sp fuel (i + 1) (scale * sp)
      else [] := rfl

/-- The zoom loop started at `i` with `n - i` passes left writes `n - i` frames. -/
theorem mainVideo.zoom_length (c : Config α) (n : Int) (zr sp : α) :
    ∀ (fuel : Nat) (i : Int) (scale : α), i + fuel = n →
      (mainVideo.zoom c n zr sp fuel i scale).length = fuel := by
  intro fuel
  induction fuel with
  | zero => intro i scale _; rfl
  | succ f ih =>
    intro i scale h
    rw [mainVideo.zoom_succ, if_pos (by omega), List.length_cons,
      ih (i + 1) _ (by push_cast at h; omega)]

/-- The `j`-th frame the zoom loop writes, started at `i` with the running
scale `scale`: the running scale multiplied `j + 1` times by the proportion, and
the rotation at the fraction `(i + j) / n` of the zoom rotation. -/
theorem mainVideo.zoom_get (c : Config α) (n : Int) (zr sp : α) :
    ∀ (fuel : Nat) (i : Int) (scale : α) (j : Nat), i + fuel = n → j < fuel →
      (mainVideo.zoom c n zr sp fuel i scale).get? j =
        some ⟨c.CenterX, c.CenterY, scale * sp ^ (j + 1),
          c.InitialRotation + ((i + (j : Int) : Int) : α) / ((n : Int) : α) * zr⟩ := by
  intro fuel
  induction fuel with
  | zero => intro i scale j _ hj; omega
  | succ f ih =>
    intro i scale j h hj
    rw [mainVideo.zoom_succ, if_pos (by omega)]
    cases j with
    | zero =>
      simp only [List.get?_cons_zero, zero_add, pow_one, Nat.cast_zero, add_zero]
    | succ j =>
      rw [List.get?_cons_succ, ih (i + 1) _ j (by push_cast at h; omega) (by omega)]
      have e1 : scale * sp * sp ^ (j + 1) = scale * sp ^ (j + 1 + 1) := by ring
      have e2 : i + 1 + (j : Int) = i + ((j + 1 : Nat) : Int) := by push_cast; ring
      rw [e1, e2]

/-- A successful run of `mainVideo` writes the frames of `mainVideo.frames`. -/
theorem mainVideo.eq_frames [FloorRing α] (pow : α → α → α) (pi : α) (c : Config α)
    (loaded : Except String (List Color)) (frames : List (Viewport α))
    (h : mainVideo pow pi c loaded = .ok frames) : frames = mainVideo.frames pow pi c := by
  unfold mainVideo at h
  split at h
  · exact absurd h (by simp)
  · simp only [Except.ok.injEq] at h
    exact h.symm

/-- The number of frames `mainVideo.frames` holds. -/
theorem mainVideo.frames_length [FloorRing α] (pow : α → α → α) (pi : α) (c : Config α) :
    (mainVideo.frames pow pi c).length =
      (toInt (c.InitialImageTime * ((c.FramesPerSecond : Int) : α))).toNat
      + (toInt (c.ZoomTime * ((c.FramesPerSecond : Int) : α))).toNat
      + (toInt (c.FinalImageTime * ((c.FramesPerSecond : Int) : α))).toNat := by
  unfold mainVideo.frames
  simp only [List.length_append, List.length_replicate]
  congr 2
  rcases le_or_lt 0 (toInt (c.ZoomTime * ((c.FramesPerSecond : Int) : α))) with h | h
  · exact mainVideo.zoom_length c _ _ _ _ 0 _ (by simp [Int.toNat_of_nonneg h])
  · have h0 : (toInt (c.ZoomTime * ((c.FramesPerSecond : Int) : α))).toNat = 0 := by omega
    rw [h0]; rfl

theorem toInt_nonneg [FloorRing α] {x : α} (hx : 0 ≤ x) : 0 ≤ toInt x := by
  unfold toInt
  rw [if_pos hx]
  exact Int.floor_nonneg.mpr hx

/-- The frames of `mainVideo.frames`: the initial hold, the zoom, the final hold. -/
theorem mainVideo.frames_eq [FloorRing α] (pow : α → α → α) (pi : α) (c : Config α) :
    mainVideo.frames pow pi c =
      List.replicate (toInt (c.InitialImageTime * ((c.FramesPerSecond : Int) : α))).toNat
          ⟨c.CenterX, c.CenterY, c.InitialScale, c.InitialRotation⟩
        ++ mainVideo.zoom c (toInt (c.ZoomTime * ((c.FramesPerSecond : Int) : α)))
            (c.Rotation - c.InitialRotation + ((c.ZoomRotation : Int) : α) * 2 * pi)
            (pow (c.Scale / c.InitialScale)
              (1 / ((toInt (c.ZoomTime * ((c.FramesPerSecond : Int) : α)) : Int) : α)))
            (toInt (c.ZoomTime * ((c.FramesPerSecond : Int) : α))).toNat 0 c.InitialScale
        ++ List.replicate (toInt (c.FinalImageTime * ((c.FramesPerSecond : Int) : α))).toNat
          ⟨c.CenterX, c.CenterY, c.Scale, c.Rotation⟩ := rfl

end VideoLemmas

/-! ## Animation sequencer: the claims -/

section Video

variable {α : Type} [LinearOrderedField α] [FloorRing α]

/-- C15, as the code has it. For a frame rate `≥ 0` and non-negative phase
durations, the number of frames a run of `mainVideo` writes is
`trunc (initial_image_time * fps) + trunc (zoom_time * fps) +
trunc (final_image_time * fps)`, each product truncated toward zero by the
conversion `int(...)`, not rounded. -/
theorem mainVideo_frame_count (pow : α → α → α) (pi : α) (c : Config α)
    (loaded : Except String (List Color)) (frames : List (Viewport α))
    (hfps : 0 ≤ c.FramesPerSecond) (hI : 0 ≤ c.InitialImageTime) (hZ : 0 ≤ c.ZoomTime)
    (hF : 0 ≤ c.FinalImageTime) (hrun : mainVideo pow pi c loaded = .ok frames) :
    (frames.length : Int) =
      toInt (c.InitialImageTime * ((c.FramesPerSecond : Int) : α))
      + toInt (c.ZoomTime * ((c.FramesPerSecond : Int) : α))
      + toInt (c.FinalImageTime * ((c.FramesPerSecond : Int) : α)) := by
  have hf : (0 : α) ≤ ((c.FramesPerSecond : Int) : α) := by exact_mod_cast hfps
  have h1 := toInt_nonneg (mul_nonneg hI hf)
  have h2 := toInt_nonneg (mul_nonneg hZ hf)
  have h3 := toInt_nonneg (mul_nonneg hF hf)
  rw [mainVideo.eq_frames pow pi c loaded frames hrun, mainVideo.frames_length]
  push_cast
  rw [Int.toNat_of_nonneg h1, Int.toNat_of_nonneg h2, Int.toNat_of_nonneg h3]

/-- C15 as the code has it, on `zoomConfig` over `ℚ`: 2 + 2 + 1 frames. -/
theorem mainVideo_frame_count_witness :
    (0 : Int) ≤ (zoomConfig : Config ℚ).FramesPerSecond ∧
    (0 : ℚ) ≤ (zoomConfig : Config ℚ).InitialImageTime ∧
    (0 : ℚ) ≤ (zoomConfig : Config ℚ).ZoomTime ∧
    (0 : ℚ) ≤ (zoomConfig : Config ℚ).FinalImageTime ∧
    mainVideo ratPow (22 / 7) (zoomConfig : Config ℚ) (.ok [⟨0, 0, 0⟩])
      = .ok (mainVideo.frames ratPow (22 / 7) zoomConfig) ∧
    ((mainVideo.frames ratPow (22 / 7) (zoomConfig : Config ℚ)).length : Int) =
      toInt ((zoomConfig : Config ℚ).InitialImageTime
        * (((zoomConfig : Config ℚ).FramesPerSecond : Int) : ℚ))
      + toInt ((zoomConfig : Config ℚ).ZoomTime
        * (((zoomConfig : Config ℚ).FramesPerSecond : Int) : ℚ))
      + toInt ((zoomConfig : Config ℚ).FinalImageTime
        * (((zoomConfig : Config ℚ).FramesPerSecond : Int) : ℚ)) :=
  ⟨by decide, by norm_num [zoomConfig], by norm_num [zoomConfig], by norm_num [zoomConfig],
    rfl,
    mainVideo_frame_count ratPow (22 / 7) zoomConfig (.ok [⟨0, 0, 0⟩]) _ (by decide)
      (by norm_num [zoomConfig]) (by norm_num [zoomConfig]) (by norm_num [zoomConfig]) rfl⟩

/-- C15 as stated fails on `holdConfig` over the reals (one frame a second, an
initial hold of 0.9 seconds, no zoom, no final hold): the run writes no frame,
while the three rounded products add up to 1. -/
theorem mainVideo_frame_count_not_rounded :
    mainVideo (fun x y : ℝ => x ^ y) Real.pi (holdConfig : Config ℝ) (.ok [⟨0, 0, 0⟩])
      = .ok [] ∧
    toInt (Round ((holdConfig : Config ℝ).InitialImageTime
        * (((holdConfig : Config ℝ).FramesPerSecond : Int) : ℝ)))
      + toInt (Round ((holdConfig : Config ℝ).ZoomTime
        * (((holdConfig : Config ℝ).FramesPerSecond : Int) : ℝ)))
      + toInt (Round ((holdConfig : Config ℝ).FinalImageTime
        * (((holdConfig : Config ℝ).FramesPerSecond : Int) : ℝ))) = 1 := by
  have hI : (holdConfig : Config ℝ).InitialImageTime
      * (((holdConfig : Config ℝ).FramesPerSecond : Int) : ℝ) = 9 / 10 := by
    norm_num [holdConfig]
  have hZ : (holdConfig : Config ℝ).ZoomTime
      * (((holdConfig : Config ℝ).FramesPerSecond : Int) : ℝ) = ((0 : Int) : ℝ) := by
    norm_num [holdConfig]
  have hF : (holdConfig : Config ℝ).FinalImageTime
      * (((holdConfig : Config ℝ).FramesPerSecond : Int) : ℝ) = ((0 : Int) : ℝ) := by
    norm_num [holdConfig]
  have t9 : toInt (9 / 10 : ℝ) = 0 := by
    unfold toInt
    rw [if_pos (by norm_num), Int.floor_eq_iff]
    constructor <;> norm_num
  have r9 : Round (9 / 10 : ℝ) = ((1 : Int) : ℝ) := by
    unfold Round
    rw [if_pos (by norm_num)]
    have : ⌊(9 / 10 : ℝ) + 1 / 2⌋ = 1 := by
      rw [Int.floor_eq_iff]; constructor <;> norm_num
    rw [this]
  constructor
  · have hrun : mainVideo (fun x y : ℝ => x ^ y) Real.pi (holdConfig : Config ℝ)
        (.ok [⟨0, 0, 0⟩]) = .ok (mainVideo.frames (fun x y : ℝ => x ^ y) Real.pi holdConfig) :=
      rfl
    rw [hrun, mainVideo.frames_eq, hI, hZ, hF, t9, toInt_intCast]
    rfl
  · rw [hI, hZ, hF, r9, Round_intCast, toInt_intCast, toInt_intCast]
    rfl

/-- C16, as the code has it. In a run of `mainVideo`, when the initial hold
has at least one frame the first frame written is rendered at the initial
viewport (centre, `InitialScale`, `InitialRotation`), and when the final hold
has at least one frame the last frame written is rendered at the final
viewport (centre, `Scale`, `Rotation`). -/
theorem mainVideo_first_last (pow : α → α → α) (pi : α) (c : Config α)
    (loaded : Except String (List Color)) (frames : List (Viewport α))
    (hrun : mainVideo pow pi c loaded = .ok frames) :
    (1 ≤ toInt (c.InitialImageTime * ((c.FramesPerSecond : Int) : α)) →
      frames.head? = some ⟨c.CenterX, c.CenterY, c.InitialScale, c.InitialRotation⟩) ∧
    (1 ≤ toInt (c.FinalImageTime * ((c.FramesPerSecond : Int) : α)) →
      frames.getLast? = some ⟨c.CenterX, c.CenterY, c.Scale, c.Rotation⟩) := by
  rw [mainVideo.eq_frames pow pi c loaded frames hrun, mainVideo.frames_eq]
  constructor
  · intro h
    obtain ⟨k, hk⟩ : ∃ k : Nat,
        (toInt (c.InitialImageTime * ((c.FramesPerSecond : Int) : α))).toNat = k + 1 :=
      ⟨(toInt (c.InitialImageTime * ((c.FramesPerSecond : Int) : α))).toNat - 1, by omega⟩
    rw [hk, List.replicate_succ]
    rfl
  · intro h
    obtain ⟨k, hk⟩ : ∃ k : Nat,
        (toInt (c.FinalImageTime * ((c.FramesPerSecond : Int) : α))).toNat = k + 1 :=
      ⟨(toInt (c.FinalImageTime * ((c.FramesPerSecond : Int) : α))).toNat - 1, by omega⟩
    rw [hk, List.replicate_succ', ← List.append_assoc]
    exact List.getLast?_concat _

/-- C16 as the code has it, on `zoomConfig` over `ℚ`, whose holds have two
frames and one frame. -/
theorem mainVideo_first_last_witness :
    mainVideo ratPow (22 / 7) (zoomConfig : Config ℚ) (.ok [⟨0, 0, 0⟩])
      = .ok (mainVideo.frames ratPow (22 / 7) zoomConfig) ∧
    (1 : Int) ≤ toInt ((zoomConfig : Config ℚ).InitialImageTime
        * (((zoomConfig : Config ℚ).FramesPerSecond : Int) : ℚ)) ∧
    (1 : Int) ≤ toInt ((zoomConfig : Config ℚ).FinalImageTime
        * (((zoomConfig : Config ℚ).FramesPerSecond : Int) : ℚ)) ∧
    (mainVideo.frames ratPow (22 / 7) (zoomConfig : Config ℚ)).head? = some ⟨0, 0, 1, 0⟩ ∧
    (mainVideo.frames ratPow (22 / 7) (zoomConfig : Config ℚ)).getLast? = some ⟨0, 0, 4, 1⟩ :=
  have h := mainVideo_first_last ratPow (22 / 7) (zoomConfig : Config ℚ) (.ok [⟨0, 0, 0⟩])
    _ rfl
  have h1 : (1 : Int) ≤ toInt ((zoomConfig : Config ℚ).InitialImageTime
      * (((zoomConfig : Config ℚ).FramesPerSecond : Int) : ℚ)) := by
    norm_num [zoomConfig, toInt]
  have h2 : (1 : Int) ≤ toInt ((zoomConfig : Config ℚ).FinalImageTime
      * (((zoomConfig : Config ℚ).FramesPerSecond : Int) : ℚ)) := by
    norm_num [zoomConfig, toInt]
  ⟨rfl, h1, h2, h.1 h1, h.2 h2⟩

/-- C16 as stated fails on `turnConfig` over the reals (no holds, one zoom
frame from scale 1 to 4 and from rotation 0 to 1): the run writes the single
frame of scale 4 and rotation 0, which is neither the initial viewport (scale
1) nor the final viewport (rotation 1). -/
theorem mainVideo_first_last_without_holds :
    mainVideo (fun x y : ℝ => x ^ y) Real.pi (turnConfig : Config ℝ) (.ok [⟨0, 0, 0⟩])
      = .ok [⟨0, 0, 4, 0⟩] ∧
    (⟨0, 0, 4, 0⟩ : Viewport ℝ) ≠
      ⟨(turnConfig : Config ℝ).CenterX, (turnConfig : Config ℝ).CenterY,
        (turnConfig : Config ℝ).InitialScale, (turnConfig : Config ℝ).InitialRotation⟩ ∧
    (⟨0, 0, 4, 0⟩ : Viewport ℝ) ≠
      ⟨(turnConfig : Config ℝ).CenterX, (turnConfig : Config ℝ).CenterY,
        (turnConfig : Config ℝ).Scale, (turnConfig : Config ℝ).Rotation⟩ := by
  have hI : (turnConfig : Config ℝ).InitialImageTime
      * (((turnConfig : Config ℝ).FramesPerSecond : Int) : ℝ) = ((0 : Int) : ℝ) := by
    norm_num [turnConfig]
  have hZ : (turnConfig : Config ℝ).ZoomTime
      * (((turnConfig : Config ℝ).FramesPerSecond : Int) : ℝ) = ((1 : Int) : ℝ) := by
    norm_num [turnConfig]
  have hF : (turnConfig : Config ℝ).FinalImageTime
      * (((turnConfig : Config ℝ).FramesPerSecond : Int) : ℝ) = ((0 : Int) : ℝ) := by
    norm_num [turnConfig]
  refine ⟨?_, ?_, ?_⟩
  · have hrun : mainVideo (fun x y : ℝ => x ^ y) Real.pi (turnConfig : Config ℝ)
        (.ok [⟨0, 0, 0⟩]) = .ok (mainVideo.frames (fun x y : ℝ => x ^ y) Real.pi turnConfig) :=
      rfl
    rw [hrun, mainVideo.frames_eq, hI, hZ, hF, toInt_intCast, toInt_intCast]
    show Except.ok (List.replicate 0 _ ++ mainVideo.zoom _ 1 _ _ 1 0 _ ++ List.replicate 0 _)
      = _
    rw [mainVideo.zoom_succ, if_pos (by decide), mainVideo.zoom_zero]
    simp [turnConfig, defaultConfig]
  · intro h
    have := congrArg Viewport.scale h
    norm_num [turnConfig] at this
  · intro h
    have := congrArg Viewport.rotation h
    norm_num [turnConfig] at this

/-- C17. Over the reals, with `math.Pow` the real power and `math.Pi` the
number `π`: for positive `InitialScale` and `Scale` and a zoom of `n ≥ 1`
frames, the `i`-th zoom frame (`0 ≤ i < n`, written after the initial hold) is
rendered at the scale `InitialScale * r ^ (i + 1)` with
`r = (Scale / InitialScale) ^ (1 / n)`, and at the rotation
`InitialRotation + (i / n) * net` with
`net = (Rotation - InitialRotation) + ZoomRotation * 2 * π`; and the running
scale after the `n`-th zoom frame, `InitialScale * r ^ n`, is `Scale`. -/
theorem mainVideo_zoom_frames (c : Config ℝ) (loaded : Except String (List Color))
    (frames : List (Viewport ℝ)) (hI : 0 < c.InitialScale) (hS : 0 < c.Scale)
    (hn : 1 ≤ toInt (c.ZoomTime * ((c.FramesPerSecond : Int) : ℝ)))
    (hrun : mainVideo (fun x y : ℝ => x ^ y) Real.pi c loaded = .ok frames) :
    (∀ i : Nat, (i : Int) < toInt (c.ZoomTime * ((c.FramesPerSecond : Int) : ℝ)) →
      frames.get? ((toInt (c.InitialImageTime * ((c.FramesPerSecond : Int) : ℝ))).toNat + i) =
        some ⟨c.CenterX, c.CenterY,
          c.InitialScale * ((c.Scale / c.InitialScale)
            ^ (1 / ((toInt (c.ZoomTime * ((c.FramesPerSecond : Int) : ℝ)) : Int) : ℝ)))
              ^ (i + 1),
          c.InitialRotation
            + (i : ℝ) / ((toInt (c.ZoomTime * ((c.FramesPerSecond : Int) : ℝ)) : Int) : ℝ)
              * (c.Rotation - c.InitialRotation + ((c.ZoomRotation : Int) : ℝ) * 2 * Real.pi)⟩) ∧
    c.InitialScale * ((c.Scale / c.InitialScale)
        ^ (1 / ((toInt (c.ZoomTime * ((c.FramesPerSecond : Int) : ℝ)) : Int) : ℝ)))
          ^ (toInt (c.ZoomTime * ((c.FramesPerSecond : Int) : ℝ))).toNat = c.Scale := by
  rw [mainVideo.eq_frames _ _ c loaded frames hrun, mainVideo.frames_eq]
  generalize toInt (c.ZoomTime * ((c.FramesPerSecond : Int) : ℝ)) = n at hn ⊢
  generalize (toInt (c.InitialImageTime * ((c.FramesPerSecond : Int) : ℝ))).toNat = k
  constructor
  · intro i hi
    have hi' : i < n.toNat := by omega
    have hz := mainVideo.zoom_get c n
      (c.Rotation - c.InitialRotation + ((c.ZoomRotation : Int) : ℝ) * 2 * Real.pi)
      ((c.Scale / c.InitialScale) ^ (1 / ((n : Int) : ℝ))) n.toNat 0 c.InitialScale i
      (by omega) hi'
    have hlen := mainVideo.zoom_length c n
      (c.Rotation - c.InitialRotation + ((c.ZoomRotation : Int) : ℝ) * 2 * Real.pi)
      ((c.Scale / c.InitialScale) ^ (1 / ((n : Int) : ℝ))) n.toNat 0 c.InitialScale
      (by omega)
    rw [List.get?_eq_getElem?] at hz ⊢
    rw [List.append_assoc, List.getElem?_append_right (by simp),
      List.length_replicate, Nat.add_sub_cancel_left,
      List.getElem?_append_left (by rw [hlen]; exact hi'), hz]
    simp
  · have hn0 : n.toNat ≠ 0 := by omega
    have hcast : ((n : Int) : ℝ) = ((n.toNat : Nat) : ℝ) := by
      have : (n : Int) = ((n.toNat : Nat) : Int) := (Int.toNat_of_nonneg (by omega)).symm
      rw [this, Int.cast_natCast, Int.toNat_natCast]
    have hx : 0 ≤ c.Scale / c.InitialScale := le_of_lt (div_pos hS hI)
    rw [hcast, one_div, Real.rpow_inv_natCast_pow hx hn0]
    field_simp

/-- C17, on `zoomConfig` over the reals: a zoom of two frames from scale 1 to
scale 4, whose running scale after the second frame is 4. -/
theorem mainVideo_zoom_frames_witness :
    (0 : ℝ) < (zoomConfig : Config ℝ).InitialScale ∧
    (0 : ℝ) < (zoomConfig : Config ℝ).Scale ∧
    (1 : Int) ≤ toInt ((zoomConfig : Config ℝ).ZoomTime
        * (((zoomConfig : Config ℝ).FramesPerSecond : Int) : ℝ)) ∧
    mainVideo (fun x y : ℝ => x ^ y) Real.pi (zoomConfig : Config ℝ) (.ok [⟨0, 0, 0⟩])
      = .ok (mainVideo.frames (fun x y : ℝ => x ^ y) Real.pi zoomConfig) ∧
    (zoomConfig : Config ℝ).InitialScale
      * (((zoomConfig : Config ℝ).Scale / (zoomConfig : Config ℝ).InitialScale)
        ^ (1 / ((toInt ((zoomConfig : Config ℝ).ZoomTime
          * (((zoomConfig : Config ℝ).FramesPerSecond : Int) : ℝ)) : Int) : ℝ)))
          ^ (toInt ((zoomConfig : Config ℝ).ZoomTime
            * (((zoomConfig : Config ℝ).FramesPerSecond : Int) : ℝ))).toNat
      = (zoomConfig : Config ℝ).Scale :=
  have hZ : (zoomConfig : Config ℝ).ZoomTime
      * (((zoomConfig : Config ℝ).FramesPerSecond : Int) : ℝ) = ((2 : Int) : ℝ) := by
    norm_num [zoomConfig]
  have hn : (1 : Int) ≤ toInt ((zoomConfig : Config ℝ).ZoomTime
      * (((zoomConfig : Config ℝ).FramesPerSecond : Int) : ℝ)) := by
    rw [hZ, toInt_intCast]; decide
  ⟨by norm_num [zoomConfig], by norm_num [zoomConfig], hn, rfl,
    (mainVideo_zoom_frames (zoomConfig : Config ℝ) (.ok [⟨0, 0, 0⟩]) _
      (by norm_num [zoomConfig]) (by norm_num [zoomConfig]) hn rfl).2⟩

end Video

/-! ## Parallel raster engine: lemmas -/

section RasterLemmas

variable {α : Type} [LinearOrderedField α]

/-- The pixels of the jobs, in the order sent: the pairs of the column and row
counters. -/
theorem GetImage.jobs_pixels (config : Config α) (scale : α) :
    (GetImage.jobs config scale).map (fun j => (j.x, j.y)) =
      (List.range config.ImageWidth.toNat).flatMap fun (a : Nat) =>
        (List.range config.ImageHeight.toNat).map fun (b : Nat) => ((a : Int), (b : Int)) := by
  unfold GetImage.jobs
  simp only [List.map_flatMap, List.map_map]
  rfl

theorem GetImage.pixels_nodup (config : Config α) (scale : α) :
    ((GetImage.jobs config scale).map (fun j => (j.x, j.y))).Nodup := by
  rw [GetImage.jobs_pixels, List.nodup_flatMap]
  constructor
  · intro a _
    apply List.Nodup.map _ (List.nodup_range _)
    intro p q h
    simp only [Prod.mk.injEq, Nat.cast_inj, true_and] at h
    exact h
  · apply List.Pairwise.imp _ (List.pairwise_lt_range _)
    intro a b hab
    simp only [Function.onFun, List.disjoint_left, List.mem_map, List.mem_range,
      not_exists, not_and]
    rintro p ⟨u, _, rfl⟩ v _ h
    simp only [Prod.mk.injEq, Nat.cast_inj] at h
    omega

theorem GetImage.mem_pixels (config : Config α) (scale : α) (x y : Int) :
    (x, y) ∈ (GetImage.jobs config scale).map (fun j => (j.x, j.y)) ↔
      0 ≤ x ∧ x < config.ImageWidth ∧ 0 ≤ y ∧ y < config.ImageHeight := by
  rw [GetImage.jobs_pixels]
  simp only [List.mem_flatMap, List.mem_map, List.mem_range, Prod.mk.injEq]
  constructor
  · rintro ⟨a, ha, b, hb, hx, hy⟩
    omega
  · rintro ⟨h1, h2, h3, h4⟩
    exact ⟨x.toNat, by omega, y.toNat, by omega, by omega, by omega⟩

theorem GetImage.jobs_length (config : Config α) (scale : α) :
    (GetImage.jobs config scale).length
      = config.ImageWidth.toNat * config.ImageHeight.toNat := by
  have h := congrArg List.length (GetImage.jobs_pixels config scale)
  rw [List.length_map, List.length_flatMap] at h
  rw [h]
  have hc : (List.length ∘ fun (a : Nat) =>
      (List.range config.ImageHeight.toNat).map fun (b : Nat) => ((a : Int), (b : Int)))
      = fun _ => config.ImageHeight.toNat := by
    funext a
    simp
  rw [hc, List.map_const', List.length_range, List.sum_const_nat]

/-- In a list whose images under `f` are pairwise different, exactly one
element has a given image that occurs. -/
theorem countP_eq_one_of_nodup_map {β γ : Type} [DecidableEq γ] (f : β → γ) (l : List β)
    (c : γ) (hn : (l.map f).Nodup) (hm : c ∈ l.map f) :
    l.countP (fun b => decide (f b = c)) = 1 := by
  have h := List.count_eq_one_of_mem hn hm
  rw [List.count, List.countP_map] at h
  rw [← h]
  apply List.countP_congr
  intro b _
  simp

/-- The pixels of the results, in the order of the jobs, are the pixels of the
jobs. -/
theorem GetImage.results_pixels (m : MathFns α) (config : Config α)
    (centerX centerY scale rotation : α) (calcColor : Bool → Int → α → Color) :
    (GetImage.results m config centerX centerY scale rotation calcColor).map Result.pixel
      = (GetImage.jobs config scale).map (fun j => (j.x, j.y)) := by
  unfold GetImage.results
  rw [List.map_map]
  rfl

end RasterLemmas

/-! ## Parallel raster engine: the claims -/

section Raster

variable {α : Type} [LinearOrderedField α]

/-- C18. For an image of width and height at least 1, `GetImage` sends exactly
`ImageWidth * ImageHeight` jobs, every job is for a pixel of the image, every
pixel `(x, y)` with `0 ≤ x < ImageWidth`, `0 ≤ y < ImageHeight` has exactly one
job, the result computed for a job carries the pixel of the job, and in
whatever order the results reach the collector it writes
`ImageWidth * ImageHeight` pixels, each pixel of the image exactly once. -/
theorem GetImage_every_pixel_once (m : MathFns α) (config : Config α)
    (centerX centerY scale rotation : α) (calcColor : Bool → Int → α → Color)
    (hW : 1 ≤ config.ImageWidth) (hH : 1 ≤ config.ImageHeight) :
    ((GetImage.jobs config scale).length : Int) = config.ImageWidth * config.ImageHeight ∧
    (∀ j ∈ GetImage.jobs config scale,
      0 ≤ j.x ∧ j.x < config.ImageWidth ∧ 0 ≤ j.y ∧ j.y < config.ImageHeight) ∧
    (∀ x y : Int, 0 ≤ x → x < config.ImageWidth → 0 ≤ y → y < config.ImageHeight →
      (GetImage.jobs config scale).countP (fun j => decide ((j.x, j.y) = (x, y))) = 1) ∧
    (∀ j : Job α,
      (GetImage.calc m config centerX centerY rotation calcColor j).pixel = (j.x, j.y)) ∧
    (∀ received : List Result,
      received.Perm (GetImage.results m config centerX centerY scale rotation calcColor) →
      (received.length : Int) = config.ImageWidth * config.ImageHeight ∧
      ∀ x y : Int, 0 ≤ x → x < config.ImageWidth → 0 ≤ y → y < config.ImageHeight →
        received.countP (fun r => decide (r.pixel = (x, y))) = 1) := by
  have hlen : ((GetImage.jobs config scale).length : Int)
      = config.ImageWidth * config.ImageHeight := by
    rw [GetImage.jobs_length]
    push_cast
    rw [Int.toNat_of_nonneg (by omega), Int.toNat_of_nonneg (by omega)]
  have hcount : ∀ x y : Int, 0 ≤ x → x < config.ImageWidth → 0 ≤ y →
      y < config.ImageHeight →
      (GetImage.jobs config scale).countP (fun j => decide ((j.x, j.y) = (x, y))) = 1 := by
    intro x y h1 h2 h3 h4
    exact countP_eq_one_of_nodup_map (fun j : Job α => (j.x, j.y)) _ (x, y)
      (GetImage.pixels_nodup config scale)
      ((GetImage.mem_pixels config scale x y).mpr ⟨h1, h2, h3, h4⟩)
  refine ⟨hlen, ?_, hcount, fun _ => rfl, ?_⟩
  · intro j hj
    exact (GetImage.mem_pixels config scale j.x j.y).mp
      (List.mem_map.mpr ⟨j, hj, rfl⟩)
  · intro received hperm
    constructor
    · rw [hperm.length_eq]
      unfold GetImage.results
      rw [List.length_map]
      exact hlen
    · intro x y h1 h2 h3 h4
      rw [hperm.countP_eq]
      unfold GetImage.results
      rw [List.countP_map]
      exact hcount x y h1 h2 h3 h4

/-- C18, on the default image of 1920 by 1080 pixels over `ℚ`. -/
theorem GetImage_every_pixel_once_witness :
    (1 : Int) ≤ (defaultConfig : Config ℚ).ImageWidth ∧
    (1 : Int) ≤ (defaultConfig : Config ℚ).ImageHeight ∧
    ((GetImage.jobs (defaultConfig : Config ℚ) (3 / 1000)).length : Int)
      = (defaultConfig : Config ℚ).ImageWidth * (defaultConfig : Config ℚ).ImageHeight ∧
    (GetImage.jobs (defaultConfig : Config ℚ) (3 / 1000)).countP
      (fun j => decide ((j.x, j.y) = (17, 900))) = 1 :=
  have h := GetImage_every_pixel_once ratFns (defaultConfig : Config ℚ) 0 0 (3 / 1000) 0
    (fun _ _ _ => ⟨0, 0, 0⟩) (by decide) (by decide)
  ⟨by decide, by decide, h.1,
    h.2.2.1 17 900 (by decide) (by decide) (by decide) (by decide)⟩

/-- C19. For every configuration, every render viewport
`(centerX, centerY, scale, rotation)` and every pixel `(x, y)` of the image,
the job `GetImage` sends for the pixel is the one built from `x`, `y` and
`scale`, and the plane point its `calc` passes to `CalculateSet` for that job
is `ImageToPlane` of the configuration whose `CenterX`, `CenterY`, `Scale`,
`Rotation` are set to the viewport, at `(x, y)`. -/
theorem GetImage_point_eq_ImageToPlane (m : MathFns α) (config : Config α)
    (centerX centerY scale rotation : α) :
    ∀ j ∈ GetImage.jobs config scale,
      GetImage.point m centerX centerY rotation j =
        ImageToPlane m
          { config with
            CenterX := centerX, CenterY := centerY, Scale := scale, Rotation := rotation }
          j.x j.y := by
  intro j hj
  unfold GetImage.jobs at hj
  simp only [List.mem_flatMap, List.mem_map, List.mem_range] at hj
  obtain ⟨x, _, y, _, rfl⟩ := hj
  rfl

/-- C19, at pixel `(17, 900)` of the default image over `ℚ`, for the viewport
of centre `(1/2, -1/3)`, scale `3/1000` and rotation 1. -/
theorem GetImage_point_eq_ImageToPlane_witness :
    (⟨17, 900, (((17 : Int) : ℚ) - ((1920 - 1 : Int) : ℚ) / 2) * (3 / 1000),
        (((1080 - 1 : Int) : ℚ) / 2 - ((900 : Int) : ℚ)) * (3 / 1000)⟩ : Job ℚ)
      ∈ GetImage.jobs (defaultConfig : Config ℚ) (3 / 1000) ∧
    GetImage.point ratFns (1 / 2) (-1 / 3) 1
      (⟨17, 900, (((17 : Int) : ℚ) - ((1920 - 1 : Int) : ℚ) / 2) * (3 / 1000),
        (((1080 - 1 : Int) : ℚ) / 2 - ((900 : Int) : ℚ)) * (3 / 1000)⟩ : Job ℚ) =
      ImageToPlane ratFns
        { (defaultConfig : Config ℚ) with
          CenterX := 1 / 2, CenterY := -1 / 3, Scale := 3 / 1000, Rotation := 1 }
        17 900 :=
  have hmem : (⟨17, 900, (((17 : Int) : ℚ) - ((1920 - 1 : Int) : ℚ) / 2) * (3 / 1000),
        (((1080 - 1 : Int) : ℚ) / 2 - ((900 : Int) : ℚ)) * (3 / 1000)⟩ : Job ℚ)
      ∈ GetImage.jobs (defaultConfig : Config ℚ) (3 / 1000) :=
    List.mem_flatMap.mpr ⟨17, List.mem_range.mpr (by decide),
      List.mem_map.mpr ⟨900, List.mem_range.mpr (by decide), rfl⟩⟩
  ⟨hmem, GetImage_point_eq_ImageToPlane ratFns (defaultConfig : Config ℚ) (1 / 2) (-1 / 3)
    (3 / 1000) 1 _ hmem⟩

end Raster

/-! ## Colour mapper: the range of the channels -/

section ChannelMix

variable {α : Type} [LinearOrderedField α]

/-- A weighted mean of two channel values of `[0, 255]`, with weights `s` and
`1 - s` for `0 ≤ s ≤ 1`, lies in `[0, 255]`. -/
theorem channel_mix_range (a b : Int) (s : α) (ha0 : 0 ≤ a) (ha1 : a ≤ 255) (hb0 : 0 ≤ b)
    (hb1 : b ≤ 255) (hs0 : 0 ≤ s) (hs1 : s ≤ 1) :
    0 ≤ (a : α) * s + (b : α) * (1 - s) ∧ (a : α) * s + (b : α) * (1 - s) ≤ 255 := by
  have ha0' : (0 : α) ≤ (a : α) := by exact_mod_cast ha0
  have ha1' : (a : α) ≤ 255 := by exact_mod_cast ha1
  have hb0' : (0 : α) ≤ (b : α) := by exact_mod_cast hb0
  have hb1' : (b : α) ≤ 255 := by exact_mod_cast hb1
  have hs' : (0 : α) ≤ 1 - s := by linarith
  constructor
  · exact add_nonneg (mul_nonneg ha0' hs0) (mul_nonneg hb0' hs')
  · have h1 : (a : α) * s ≤ 255 * s := mul_le_mul_of_nonneg_right ha1' hs0
    have h2 : (b : α) * (1 - s) ≤ 255 * (1 - s) := mul_le_mul_of_nonneg_right hb1' hs'
    linarith

end ChannelMix

section ColourRange

variable {α : Type} [LinearOrderedField α] [FloorRing α]

/-- Truncating a float of `[0, 255]` gives an integer of `[0, 255]`. -/
theorem toInt_mem_range {x : α} (h0 : 0 ≤ x) (h1 : x ≤ 255) :
    0 ≤ toInt x ∧ toInt x ≤ 255 := by
  rw [toInt_of_nonneg h0]
  refine ⟨Int.floor_nonneg.mpr h0, ?_⟩
  have h := le_trans (Int.floor_le x) h1
  exact_mod_cast h

/-- C20. For a non-empty palette whose entries have all components in
`[0, 255]`, a smooth value `≥ 0` and either value of `inSet`, the smooth colour
function returns a colour, and each of its components `R`, `G`, `B` is an
integer in `[0, 255]`. -/
theorem smoothColor_components (P : List Color) (inSet : Bool) (k : Int) (v : α)
    (hP : P ≠ [])
    (hrange : ∀ c ∈ P, 0 ≤ c.R ∧ c.R ≤ 255 ∧ 0 ≤ c.G ∧ c.G ≤ 255 ∧ 0 ≤ c.B ∧ c.B ≤ 255)
    (hv : 0 ≤ v) :
    ∃ c, smoothColor P inSet k v = some c ∧
      0 ≤ c.R ∧ c.R ≤ 255 ∧ 0 ≤ c.G ∧ c.G ≤ 255 ∧ 0 ≤ c.B ∧ c.B ≤ 255 := by
  cases inSet with
  | true =>
    refine ⟨⟨0, 0, 0⟩, smoothColor_true P k v, ?_⟩
    decide
  | false =>
    have hfl : 0 ≤ ⌊v⌋ := Int.floor_nonneg.mpr hv
    have hi : toInt (Floor v) = ((⌊v⌋.toNat : Nat) : Int) := by
      rw [toInt_Floor, Int.toNat_of_nonneg hfl]
    obtain ⟨c1, c2, h1, h2, h3⟩ := smoothColor_of_nonneg P k v ⌊v⌋.toNat hi hP
    have m1 : c1 ∈ P := List.get?_mem h1
    have m2 : c2 ∈ P := List.get?_mem h2
    obtain ⟨r10, r11, g10, g11, b10, b11⟩ := hrange c1 m1
    obtain ⟨r20, r21, g20, g21, b20, b21⟩ := hrange c2 m2
    have hs0 : 0 ≤ Mod v 1 := by
      rw [Mod_one_of_nonneg hv]; exact sub_nonneg.mpr (Int.floor_le v)
    have hs1 : Mod v 1 ≤ 1 := by
      rw [Mod_one_of_nonneg hv]
      have := Int.lt_floor_add_one v
      linarith
    have hR := channel_mix_range c1.R c2.R (Mod v 1) r10 r11 r20 r21 hs0 hs1
    have hG := channel_mix_range c1.G c2.G (Mod v 1) g10 g11 g20 g21 hs0 hs1
    have hB := channel_mix_range c1.B c2.B (Mod v 1) b10 b11 b20 b21 hs0 hs1
    refine ⟨_, h3, ?_⟩
    exact ⟨(toInt_mem_range hR.1 hR.2).1, (toInt_mem_range hR.1 hR.2).2,
      (toInt_mem_range hG.1 hG.2).1, (toInt_mem_range hG.1 hG.2).2,
      (toInt_mem_range hB.1 hB.2).1, (toInt_mem_range hB.1 hB.2).2⟩

/-- C20, on the palette `(10,20,30), (250,250,250)` at the smooth value `7/2`
over `ℚ`, outside the set. -/
theorem smoothColor_components_witness :
    ([⟨10, 20, 30⟩, ⟨250, 250, 250⟩] : List Color) ≠ [] ∧
    (∀ c ∈ ([⟨10, 20, 30⟩, ⟨250, 250, 250⟩] : List Color),
      0 ≤ c.R ∧ c.R ≤ 255 ∧ 0 ≤ c.G ∧ c.G ≤ 255 ∧ 0 ≤ c.B ∧ c.B ≤ 255) ∧
    (0 : ℚ) ≤ 7 / 2 ∧
    ∃ c, smoothColor [⟨10, 20, 30⟩, ⟨250, 250, 250⟩] false 3 (7 / 2 : ℚ) = some c ∧
      0 ≤ c.R ∧ c.R ≤ 255 ∧ 0 ≤ c.G ∧ c.G ≤ 255 ∧ 0 ≤ c.B ∧ c.B ≤ 255 :=
  have hr : ∀ c ∈ ([⟨10, 20, 30⟩, ⟨250, 250, 250⟩] : List Color),
      0 ≤ c.R ∧ c.R ≤ 255 ∧ 0 ≤ c.G ∧ c.G ≤ 255 ∧ 0 ≤ c.B ∧ c.B ≤ 255 := by
    intro c hc
    simp only [List.mem_cons, List.mem_singleton, List.not_mem_nil, or_false] at hc
    rcases hc with h | h <;> rw [h] <;> decide
  ⟨by simp, hr, by norm_num,
    smoothColor_components [⟨10, 20, 30⟩, ⟨250, 250, 250⟩] false 3 (7 / 2 : ℚ)
      (by simp) hr (by norm_num)⟩

end ColourRange

/-! ## The evaluator and the colour mapper on the special values of `float64` -/

section SpecialValues

theorem F64.CalculateSet.loop_step (M : Int) (a b : F64) (fuel : Nat) (it : Int)
    (ac bc : F64) :
    F64.CalculateSet.loop M a b (fuel + 1) it ac bc =
      if it < M then
        if F64.lt (.fin 64) (F64.add (F64.mul ac ac) (F64.mul bc bc)) then
          (it, F64.add (F64.sub (F64.mul ac ac) (F64.mul bc bc)) a,
            F64.add (F64.mul (F64.mul (.fin 2) ac) bc) b)
        else
          F64.CalculateSet.loop M a b fuel (it + 1)
            (F64.add (F64.sub (F64.mul ac ac) (F64.mul bc bc)) a)
            (F64.add (F64.mul (F64.mul (.fin 2) ac) bc) b)
      else (it, ac, bc) := rfl

/-- The loop at the point `(2^700, 2^700)` under the budget 1000: the first
pass moves to the point itself; in the second the squares overflow to the
positive infinity, their difference is not-a-number, and the loop is left at
`iteration = 1` holding not-a-number and the positive infinity. -/
theorem F64.CalculateSet.loop_huge :
    F64.CalculateSet.loop 1000 (.fin (2 ^ 700)) (.fin (2 ^ 700)) (998 + 1 + 1) 0
      (.fin 0) (.fin 0) = (1, .nan, .inf false) := by
  have h0 : F64.mul (.fin 0) (.fin 0) = .fin 0 := by
    norm_num [F64.mul, F64.ofRat, F64.overflow]
  have h1 : F64.add (.fin 0) (.fin 0) = .fin 0 := by
    norm_num [F64.add, F64.ofRat, F64.overflow]
  have h2 : F64.mul (.fin 2) (.fin 0) = .fin 0 := by
    norm_num [F64.mul, F64.ofRat, F64.overflow]
  have h3 : F64.sub (.fin 0) (.fin 0) = .fin 0 := by
    norm_num [F64.sub, F64.neg, F64.add, F64.ofRat, F64.overflow]
  have h4 : F64.add (.fin 0) (.fin (2 ^ 700)) = .fin (2 ^ 700) := by
    norm_num [F64.add, F64.ofRat, F64.overflow]
  have h5 : F64.lt (.fin 64) (.fin 0) = false := by
    norm_num [F64.lt]
  have h6 : F64.mul (.fin (2 ^ 700)) (.fin (2 ^ 700)) = .inf false := by
    norm_num [F64.mul, F64.ofRat, F64.overflow]
  have h7 : F64.add (.inf false) (.inf false) = .inf false := rfl
  have h8 : F64.lt (.fin 64) (.inf false) = true := rfl
  have h9 : F64.sub (.inf false) (.inf false) = .nan := rfl
  have h10 : F64.add .nan (.fin (2 ^ 700)) = .nan := rfl
  have h11 : F64.mul (.fin 2) (.fin (2 ^ 700)) = .fin (2 ^ 701) := by
    norm_num [F64.mul, F64.ofRat, F64.overflow]
  have h12 : F64.mul (.fin (2 ^ 701)) (.fin (2 ^ 700)) = .inf false := by
    norm_num [F64.mul, F64.ofRat, F64.overflow]
  have h13 : F64.add (.inf false) (.fin (2 ^ 700)) = .inf false := rfl
  have c0 : (0 : Int) < 1000 := by decide
  have c1 : (0 : Int) + 1 < 1000 := by decide
  rw [F64.CalculateSet.loop_step, if_pos c0]
  simp only [h0, h1, h2, h3, h4, h5, Bool.false_eq_true, if_false]
  rw [F64.CalculateSet.loop_step, if_pos c1]
  simp only [h6, h7, h8, h9, h10, h11, h12, h13, if_true]
  rfl

theorem F64.add_nan (x : F64) : F64.add x .nan = .nan := by
  cases x <;> rfl

theorem F64.nan_add (x : F64) : F64.add .nan x = .nan := by
  cases x <;> rfl

theorem F64.sub_nan (x : F64) : F64.sub x .nan = .nan := by
  unfold F64.sub
  exact F64.add_nan x

theorem F64.nan_div (x : F64) : F64.div .nan x = .nan := by
  cases x <;> rfl

/-- The smoothing block on a loop left holding not-a-number: not-a-number,
which the test `color < 0.0` lets through. -/
theorem F64.CalculateSet.color_nan (logFin : ℚ → ℚ) (y : F64) :
    F64.CalculateSet.color logFin F64.defaultConfig 1 .nan y = .nan := by
  have hm : F64.mul .nan .nan = .nan := rfl
  have hl : F64.Log logFin .nan = .nan := rfl
  have hlt : F64.lt .nan (.fin 0) = false := rfl
  unfold F64.CalculateSet.color
  rw [if_pos (by decide)]
  simp only [hm, F64.nan_add, hl, F64.nan_div, F64.sub_nan, hlt, Bool.false_eq_true,
    if_false]

/-- C9. With the special values of `float64`, at the finite point
`(2^700, 2^700)` under the default budget 1000, `CalculateSet` returns
`inSet = false`,
the count 1 and the smooth value not-a-number, which the clamp
`if color < 0.0` lets through and which is not `≥ 0`; the smooth colour
function on a palette of two colours, where `int` of not-a-number is the least
`int` (amd64), then computes the remainder `-1` of `i + 1` by 2 and panics on
the palette read. -/
theorem CalculateSet_nan_not_clamped (logFin : ℚ → ℚ) :
    F64.CalculateSet logFin F64.defaultConfig (.fin (2 ^ 700)) (.fin (2 ^ 700))
      = (false, 1, .nan) ∧
    F64.lt .nan (.fin 0) = false ∧
    F64.le (.fin 0) .nan = false ∧
    goMod (F64.toInt (-2 ^ 63) (F64.Floor .nan) + 1)
      (([⟨10, 20, 30⟩, ⟨250, 250, 250⟩] : List Color).length : Int) = some (-1) ∧
    F64.smoothColor (-2 ^ 63) [⟨10, 20, 30⟩, ⟨250, 250, 250⟩] false 1 .nan = none := by
  refine ⟨?_, rfl, rfl, by decide, by decide⟩
  have hM : F64.defaultConfig.MaxIteration = 1000 := rfl
  have hfuel : (1000 : Int).toNat = 998 + 1 + 1 := by decide
  unfold F64.CalculateSet
  rw [hM, hfuel, F64.CalculateSet.loop_huge]
  simp only [F64.CalculateSet.color_nan]
  rfl

end SpecialValues

end Mandelbrot
